import Mathlib

/-!
# sftpserver: request admission and dispatch

A shallow embedding of `sftpserver.c`: the handshake `sftp_init`, the
dispatcher `process_sftpjob` with its binary search over the active protocol
table, and the read loop of `main`.

Conventions of the embedding.

* Bytes are natural numbers below 256, a byte stream is a `List Nat`.
* Calls into the other translation units (the `send_*` reply writers,
  `queue_init`, `queue_add`, the ordering tracker, `xmalloc`, `free`) are
  recorded, in program order, as `Event`s of a trace.
* A function of the program yields a `Run`: the globals it leaves behind, the
  trace it produced, and, when the process did not come back from the call,
  the way it stopped.
* What `sftpserver.c` takes from headers that are not part of the sources
  (the numeric protocol constants, the version-3 and version-4 tables, the
  byte order of the host, the debugging flag) is a field of `Env`.
-/

namespace Sftpserver

/-! ## Data model -/

/-- The three protocol tables the global `protocol` can point to:
`&sftppreinit`, `&sftpv3`, `&sftpv4`. -/
inductive Protocol where
  | sftppreinit
  | sftpv3
  | sftpv4
  deriving DecidableEq, Repr

/-- The worker pool behind `struct queue *`; `queue_init` is told the number
of worker threads. -/
structure queue where
  nthreads : Nat
  deriving DecidableEq, Repr

/-- The globals of `sftpserver.c`: `protocol` (initially `&sftppreinit`) and
`workqueue` (initially a null pointer, here `none`). -/
structure Globals where
  protocol : Protocol
  workqueue : Option queue
  deriving DecidableEq, Repr

/-- The state at program start. -/
def Globals.initial : Globals := ⟨Protocol.sftppreinit, none⟩

/-- The fields of `struct sftpjob` the dispatcher works on. `data` is the
payload, `ptr` the read cursor as an offset into `data`, `left` the number of
bytes after the cursor. The references `a` (allocator) and `worker` are opaque
to this file and left out. -/
structure sftpjob where
  len : Nat
  data : List Nat
  ptr : Nat
  left : Nat
  id : Nat
  deriving DecidableEq, Repr

/-- Calls made by the functions of `sftpserver.c`, in the order they are
made. -/
inductive Event where
  /-- `send_status(job, status, msg)`; `id` is `job->id` at the call. -/
  | send_status (id : Nat) (status : Nat) (msg : String)
  | send_begin
  | send_uint8 (n : Nat)
  | send_uint32 (n : Nat)
  | send_string (s : String)
  | send_end
  /-- `queue_init(&workqueue, &workqueue_details, nthreads)`. -/
  | queue_init (nthreads : Nat)
  /-- `protocol->commands[m].handler(job)`: the handler of table entry `m` is
  entered with the job in the given state. -/
  | handler (m : Nat) (job : sftpjob)
  | serialize_remove_job
  /-- `free(job->data)`. -/
  | free_data
  /-- `free(job)`. -/
  | free_job
  /-- `job = xmalloc(sizeof *job)`. -/
  | xmalloc_job
  /-- `job->data = xmalloc(size)`. -/
  | xmalloc_data (size : Nat)
  /-- `hexdump(job->data, job->len)` when debugging is on. -/
  | hexdump (data : List Nat)
  | queue_serializable_job (job : sftpjob)
  | queue_add (job : sftpjob)
  /-- The call `process_sftpjob(job, wdv, &a)` made by `main`. -/
  | process_sftpjob (job : sftpjob)
  | alloc_init
  | alloc_destroy
  | queue_destroy
  | worker_cleanup
  deriving DecidableEq, Repr

/-- Ways in which the process does not return from a call. -/
inductive Stop where
  /-- `main` returned `status`. -/
  | returned (status : Nat)
  /-- `fatal(msg)`. -/
  | fatal (msg : String)
  /-- A failed `assert`. -/
  | assert_failed (msg : String)
  /-- Signed overflow of `l + r` in the table lookup. -/
  | int_overflow
  /-- A read of `protocol->commands[m]` outside the table. -/
  | table_out_of_bounds
  /-- The bound on the iterations of a loop was reached (`lookup_total` and
  `main_loop_fuel` show that it is not). -/
  | out_of_fuel
  deriving DecidableEq, Repr

/-- Outcome of running a piece of the program. -/
structure Run where
  globals : Globals
  trace : List Event
  stop : Option Stop
  deriving DecidableEq, Repr

/-- A command handler, `void (*handler)(struct sftpjob *job)`; it may read and
write the globals. -/
abbrev Handler := Globals → sftpjob → Run

/-- One entry of a protocol table, `struct sftpcmd`. -/
structure sftpcmd where
  type : Nat
  handler : Handler

/-- A protocol table, `struct sftpprotocol`: the `commands` array; its
`ncommands` field is the number of entries. The remaining fields (version
bounds, status limits, attribute hooks) are not used by `sftpserver.c`. -/
structure sftpprotocol where
  commands : List sftpcmd

/-- The `ncommands` field, an `int`. -/
def sftpprotocol.ncommands (p : sftpprotocol) : Int := p.commands.length

/-- Byte order of the host. -/
inductive Endian where
  | little
  | big
  deriving DecidableEq, Repr

/-- Everything `sftpserver.c` uses but does not define: the constants of
`sftp.h`, the tables `sftpv3` and `sftpv4`, the byte order of the machine and
whether `SFTPSERVER_DEBUGGING` is set in the environment. -/
structure Env where
  SSH_FXP_INIT : Nat
  SSH_FXP_VERSION : Nat
  SSH_FXP_READ : Nat
  SSH_FXP_WRITE : Nat
  SSH_FXP_FSTAT : Nat
  SSH_FXP_FSETSTAT : Nat
  SSH_FX_FAILURE : Nat
  SSH_FX_BAD_MESSAGE : Nat
  SSH_FX_OP_UNSUPPORTED : Nat
  sftpv3 : sftpprotocol
  sftpv4 : sftpprotocol
  host : Endian
  debugging : Bool

/-! ## Parsing -/

/-- Big-endian value of four bytes. -/
def be32 (b0 b1 b2 b3 : Nat) : Nat :=
  b0 * 16777216 + b1 * 65536 + b2 * 256 + b3

/-- Little-endian value of four bytes. -/
def le32 (b0 b1 b2 b3 : Nat) : Nat :=
  b0 + b1 * 256 + b2 * 65536 + b3 * 16777216

/-- The byte under offset `i` of the payload. -/
def sftpjob.byte (job : sftpjob) (i : Nat) : Nat := job.data.getD i 0

/-- Modelled from the spec: `parse_uint32` of `parse.h` is not among the
sources. It parses a 4-byte unsigned number from the payload and fails if it
is absent: with fewer than 4 bytes left it returns non-zero (`none`) and
leaves the job alone, otherwise it yields the big-endian value of the next
four bytes and moves the cursor past them. -/
def parse_uint32 (job : sftpjob) : Option (Nat × sftpjob) :=
  if job.left < 4 then none
  else
    some (be32 (job.byte job.ptr) (job.byte (job.ptr + 1))
               (job.byte (job.ptr + 2)) (job.byte (job.ptr + 3)),
          { job with ptr := job.ptr + 4, left := job.left - 4 })

/-! ## Initialization -/

/-- The handshake handler `sftp_init`. -/
def sftp_init (X : Env) (g : Globals) (job : sftpjob) : Run :=
  if g.protocol ≠ Protocol.sftppreinit then
    -- Cannot initialize more than once
    ⟨g, [Event.send_status job.id X.SSH_FX_FAILURE "already initialized"], none⟩
  else
    match parse_uint32 job with
    | none =>
      ⟨g, [Event.send_status job.id X.SSH_FX_BAD_MESSAGE
             "no version found in SSH_FXP_INIT"], none⟩
    | some (version, job) =>
      if version = 0 ∨ version = 1 ∨ version = 2 then
        ⟨g, [Event.send_status job.id X.SSH_FX_OP_UNSUPPORTED
               "client protocol version is too old (need at least 3)"], none⟩
      else
        -- case 3, case 4: break; default: version = 4
        let version := if version = 3 ∨ version = 4 then version else 4
        -- second switch
        let selected : Option Protocol :=
          if version = 3 then some Protocol.sftpv3
          else if version = 4 then some Protocol.sftpv4
          else none
        match selected with
        | none => ⟨g, [], some (Stop.assert_failed "cannot happen")⟩
        | some p =>
          ⟨{ protocol := p, workqueue := some ⟨4⟩ },
           [Event.send_begin,
            Event.send_uint8 X.SSH_FXP_VERSION,
            Event.send_uint32 version,
            Event.send_string "newline",
            Event.send_string "\n",
            Event.send_string "versions",
            Event.send_string "3,4",
            Event.send_end,
            Event.queue_init 4], none⟩

/-- The table `sftppreinittab`. -/
def sftppreinittab (X : Env) : List sftpcmd :=
  [⟨X.SSH_FXP_INIT, sftp_init X⟩]

/-- The protocol `sftppreinit`. -/
def sftppreinit (X : Env) : sftpprotocol := ⟨sftppreinittab X⟩

/-- The table a value of the pointer `protocol` points to. -/
def protocolTable (X : Env) : Protocol → sftpprotocol
  | Protocol.sftppreinit => sftppreinit X
  | Protocol.sftpv3 => X.sftpv3
  | Protocol.sftpv4 => X.sftpv4

/-! ## Dispatch -/

/-- Largest value of an `int`. -/
def INT_MAX : Int := 2147483647

/-- Smallest value of an `int`. -/
def INT_MIN : Int := -2147483648

/-- How the lookup loop of `process_sftpjob` ends. -/
inductive Lookup where
  /-- The `else` branch: entry `m`, which is `c`, has the type looked for. -/
  | found (m : Nat) (c : sftpcmd)
  /-- The loop ended with `l > r`. -/
  | not_found
  /-- The loop did not end normally. -/
  | stopped (s : Stop)

/-- The loop `while(l <= r)` of `process_sftpjob` over the `commands` array,
started with the given `l` and `r`; the first argument bounds the number of
iterations. `l`, `r`, `m`, `type` and `mtype` are `int`s; the division is the
truncating division of C. -/
def lookup (commands : List sftpcmd) (type : Int) : Nat → Int → Int → Lookup
  | 0, _, _ => Lookup.stopped Stop.out_of_fuel
  | fuel + 1, l, r =>
    if l ≤ r then
      if l + r < INT_MIN ∨ INT_MAX < l + r then Lookup.stopped Stop.int_overflow
      else
        let m : Int := Int.tdiv (l + r) 2
        if m < 0 then Lookup.stopped Stop.table_out_of_bounds
        else
          match commands[m.toNat]? with
          | none => Lookup.stopped Stop.table_out_of_bounds
          | some c =>
            let mtype : Int := c.type
            if type < mtype then lookup commands type fuel l (m - 1)
            else if type > mtype then lookup commands type fuel (m + 1) r
            else Lookup.found m.toNat c
    else Lookup.not_found

/-- The code after the label `done:` of `process_sftpjob`, reached when the
code before it came back. -/
def done (r : Run) : Run :=
  match r.stop with
  | some _ => r
  | none =>
    { r with trace := r.trace ++
        [Event.serialize_remove_job, Event.free_data, Event.free_job] }

/-- The part "Locate the handler for the command" of `process_sftpjob`: the
binary search over the active table and what follows from its result, up to
the label `done:`. -/
def locate_handler (X : Env) (g : Globals) (job : sftpjob) (type : Nat) : Run :=
  let p := protocolTable X g.protocol
  match lookup p.commands type (p.commands.length + 1) 0 (p.ncommands - 1) with
  | Lookup.found m c =>
    -- Run the handler
    let r := c.handler g job
    ⟨r.globals, Event.handler m job :: r.trace, r.stop⟩
  | Lookup.not_found =>
    -- We did not find a handler
    ⟨g, [Event.send_status job.id X.SSH_FX_OP_UNSUPPORTED
           "operation not supported"], none⟩
  | Lookup.stopped s => ⟨g, [], some s⟩

/-- The dispatcher `process_sftpjob`. -/
def process_sftpjob (X : Env) (g : Globals) (jv : sftpjob) : Run :=
  let job : sftpjob := { jv with id := 0, ptr := 0, left := jv.len }
  -- Empty messages are never valid
  if job.left = 0 then
    done ⟨g, [Event.send_status job.id X.SSH_FX_BAD_MESSAGE "empty request"], none⟩
  else
    -- Get the type
    let type := job.byte job.ptr
    let job : sftpjob := { job with ptr := job.ptr + 1, left := job.left - 1 }
    -- Everything but SSH_FXP_INIT has an ID field
    if type ≠ X.SSH_FXP_INIT then
      match parse_uint32 job with
      | none =>
        done ⟨g, [Event.send_status job.id X.SSH_FX_BAD_MESSAGE
                    "missing ID field"], none⟩
      | some (id, job) => done (locate_handler X g { job with id := id } type)
    else done (locate_handler X g job type)

/-! ## Main loop -/

/-- Modelled from the spec: `do_read` of `utils.h` is not among the sources.
It reads exactly `n` bytes from the input stream and reports end of stream
(non-zero, here `none`) when the stream ends before that; on success it yields
the bytes read and the rest of the stream. -/
def do_read (input : List Nat) (n : Nat) : Option (List Nat × List Nat) :=
  if input.length < n then none else some (input.take n, input.drop n)

/-- The value of a `uint32_t` whose four bytes in memory are `bs`. -/
def Endian.load32 : Endian → List Nat → Nat
  | Endian.little, [b0, b1, b2, b3] => le32 b0 b1 b2 b3
  | Endian.big, [b0, b1, b2, b3] => be32 b0 b1 b2 b3
  | _, _ => 0

/-- The function `ntohl` of the C library: network (big-endian) to host byte
order. -/
def ntohl : Endian → Nat → Nat
  | Endian.big, x => x
  | Endian.little, x =>
    be32 (x % 256) (x / 256 % 256) (x / 65536 % 256) (x / 16777216 % 256)

/-- The test made by `main` on a framed job: `job->len` is non-zero and
`*job->data` is one of the four operations on a handle. -/
def serializable (X : Env) (job : sftpjob) : Bool :=
  job.len ≠ 0 &&
    (job.byte 0 = X.SSH_FXP_READ || job.byte 0 = X.SSH_FXP_WRITE ||
     job.byte 0 = X.SSH_FXP_FSETSTAT || job.byte 0 = X.SSH_FXP_FSTAT)

/-- Puts the events `es` in front of the trace of `r`. -/
def Run.after (es : List Event) (r : Run) : Run :=
  { r with trace := es ++ r.trace }

/-- The loop `while(!do_read(0, &len, sizeof len))` of `main` and the code
after it, on the bytes still to come on the input stream. The first argument
bounds the number of iterations. `len` is the length prefix as the host reads
its four bytes, `job->len` is `ntohl(len)`; the buffer `job->data` is
allocated with `xmalloc(len)` and `do_read` is asked for `job->len` bytes.
The fields `ptr`, `left` and `id` of a fresh job are not set by `main`;
`process_sftpjob` sets them before it reads them. -/
def main_loop (X : Env) : Nat → List Nat → Globals → Run
  | 0, _, g => ⟨g, [], some Stop.out_of_fuel⟩
  | fuel + 1, input, g =>
    match do_read input 4 with
    | none =>
      ⟨g, [Event.queue_destroy, Event.worker_cleanup], some (Stop.returned 0)⟩
    | some (hdr, rest) =>
      let len := X.host.load32 hdr
      let job_len := ntohl X.host len
      let framing := [Event.xmalloc_job, Event.xmalloc_data len]
      match do_read rest job_len with
      | none =>
        -- Job data missing or truncated
        ⟨g, framing, some (Stop.fatal "read error: unexpected eof")⟩
      | some (data, rest) =>
        let job : sftpjob := ⟨job_len, data, 0, 0, 0⟩
        let dump := if X.debugging then [Event.hexdump data] else []
        let reg :=
          if serializable X job then [Event.queue_serializable_job job] else []
        match g.workqueue with
        | some _ =>
          Run.after (framing ++ dump ++ reg ++ [Event.queue_add job])
            (main_loop X fuel rest g)
        | none =>
          let r := process_sftpjob X g job
          match r.stop with
          | some _ =>
            Run.after (framing ++ dump ++ reg ++
              [Event.alloc_init, Event.process_sftpjob job]) r
          | none =>
            Run.after (framing ++ dump ++ reg ++
                [Event.alloc_init, Event.process_sftpjob job] ++ r.trace ++
                [Event.alloc_destroy])
              (main_loop X fuel rest r.globals)

/-- The function `main` on the bytes of the input stream, after its start-up
calls (`worker_init`, `signal`, `setlocale`, `getenv`), which are taken to
succeed. Every iteration of the loop takes at least four bytes off the
stream. -/
def main (X : Env) (input : List Nat) : Run :=
  main_loop X (input.length / 4 + 1) input Globals.initial

/-- A handler that answers with one status reply and changes nothing. -/
def sample_handler (status : Nat) : Handler :=
  fun g job => ⟨g, [Event.send_status job.id status "sample"], none⟩

/-- A small table sorted strictly ascending by operation code. -/
def sampleTable : List sftpcmd :=
  [⟨3, sample_handler 0⟩, ⟨5, sample_handler 1⟩, ⟨6, sample_handler 2⟩,
   ⟨17, sample_handler 3⟩]

/-- A concrete environment: the operation and status codes of the SFTP drafts,
`sampleTable` as the version-3 table, an empty version-4 table, no
debugging. -/
def sampleEnv (host : Endian) : Env where
  SSH_FXP_INIT := 1
  SSH_FXP_VERSION := 2
  SSH_FXP_READ := 5
  SSH_FXP_WRITE := 6
  SSH_FXP_FSTAT := 8
  SSH_FXP_FSETSTAT := 10
  SSH_FX_FAILURE := 4
  SSH_FX_BAD_MESSAGE := 5
  SSH_FX_OP_UNSUPPORTED := 8
  sftpv3 := ⟨sampleTable⟩
  sftpv4 := ⟨[]⟩
  host := host
  debugging := false

/-! ## Sequences of handshakes -/

/-- The protocol states passed through when `sftp_init` is called on the given
jobs one after the other, starting from the globals `g`. -/
def init_states (X : Env) : Globals → List sftpjob → List Protocol
  | g, [] => [g.protocol]
  | g, job :: jobs => g.protocol :: init_states X (sftp_init X g job).globals jobs

/-- Number of places in a sequence of protocol states where the state differs
from the one before. -/
def changes : List Protocol → Nat
  | a :: b :: rest => (if a = b then 0 else 1) + changes (b :: rest)
  | _ => 0

/-! ## Table lookup by linear scan -/

/-- The entries of a table are sorted strictly ascending by operation code. -/
def ascending (commands : List sftpcmd) : Prop :=
  commands.Pairwise (fun a b => a.type < b.type)

/-- Lookup by linear scan, as the specification describes the reference
behaviour: go through the entries from the first on (`i` is the index of the
head of the list) and take the first whose operation code is `type`. -/
def linear_scan : List sftpcmd → Nat → Nat → Lookup
  | [], _, _ => Lookup.not_found
  | c :: cs, type, i =>
    if c.type = type then Lookup.found i c else linear_scan cs type (i + 1)

/-- The dispatch step with the lookup done by `linear_scan`: the handler of the
entry found is run, and without one the reply is "operation unsupported". -/
def locate_handler_linear (X : Env) (g : Globals) (job : sftpjob) (type : Nat) : Run :=
  match linear_scan (protocolTable X g.protocol).commands type 0 with
  | Lookup.found m c =>
    let r := c.handler g job
    ⟨r.globals, Event.handler m job :: r.trace, r.stop⟩
  | Lookup.not_found =>
    ⟨g, [Event.send_status job.id X.SSH_FX_OP_UNSUPPORTED
           "operation not supported"], none⟩
  | Lookup.stopped s => ⟨g, [], some s⟩

/-- The dispatcher with the lookup done by `linear_scan`. -/
def process_sftpjob_linear (X : Env) (g : Globals) (jv : sftpjob) : Run :=
  let job : sftpjob := { jv with id := 0, ptr := 0, left := jv.len }
  if job.left = 0 then
    done ⟨g, [Event.send_status job.id X.SSH_FX_BAD_MESSAGE "empty request"], none⟩
  else
    let type := job.byte job.ptr
    let job : sftpjob := { job with ptr := job.ptr + 1, left := job.left - 1 }
    if type ≠ X.SSH_FXP_INIT then
      match parse_uint32 job with
      | none =>
        done ⟨g, [Event.send_status job.id X.SSH_FX_BAD_MESSAGE
                    "missing ID field"], none⟩
      | some (id, job) => done (locate_handler_linear X g { job with id := id } type)
    else done (locate_handler_linear X g job type)

/-! ## Counting replies -/

/-- Number of replies written along a trace: a reply is one `send_status`
call or one message closed by `send_end`. -/
def replies : List Event → Nat
  | [] => 0
  | Event.send_status _ _ _ :: es => replies es + 1
  | Event.send_end :: es => replies es + 1
  | _ :: es => replies es

/-- The trace contains the call of a handler. -/
def invokes_handler (tr : List Event) : Prop :=
  ∃ m job, Event.handler m job ∈ tr

/-! ## Reading the trace of the main loop -/

/-- The jobs handed to `queue_serializable_job` along a trace, in order. -/
def registered : List Event → List sftpjob
  | [] => []
  | Event.queue_serializable_job job :: es => job :: registered es
  | _ :: es => registered es

/-- The jobs that `main` submitted with `queue_add` or executed itself with
`process_sftpjob` along a trace, in order. -/
def dispatched : List Event → List sftpjob
  | [] => []
  | Event.queue_add job :: es => job :: dispatched es
  | Event.process_sftpjob job :: es => job :: dispatched es
  | _ :: es => dispatched es

/-- The events that only the loop of `main` produces. -/
def Event.of_loop : Event → Bool
  | Event.queue_serializable_job _ => true
  | Event.queue_add _ => true
  | Event.process_sftpjob _ => true
  | _ => false

/-- What the loop of `main` relies on in a run of code it calls: the run came
back, produced none of the loop's own events, and either left the globals
alone or left them initialized with a worker pool. -/
def Run.quiet (g : Globals) (r : Run) : Prop :=
  r.stop = none ∧ (∀ e ∈ r.trace, e.of_loop = false) ∧
    (r.globals = g ∨
      (r.globals.protocol ≠ Protocol.sftppreinit ∧ r.globals.workqueue = some ⟨4⟩))


/-- The event `e` is the submission or the inline execution of `job`. -/
def Event.dispatches (e : Event) (job : sftpjob) : Prop :=
  e = Event.queue_add job ∨ e = Event.process_sftpjob job

/-- Shape of a trace of the loop of `main`: one block per framed job (its
framing and, for a serializable job, its registration; then its submission or
inline execution; then what the execution produced), followed by what the end
of the loop produces. -/
inductive LoopTrace (X : Env) : List Event → Prop where
  | last (tl : List Event) (h : ∀ e ∈ tl, e.of_loop = false) : LoopTrace X tl
  | block (hd : List Event) (d : Event) (body rest : List Event) (job : sftpjob)
      (hhd : dispatched hd = [])
      (hreg : registered hd = [job].filter (serializable X))
      (hd_job : d.dispatches job)
      (hbody : ∀ e ∈ body, e.of_loop = false)
      (hrest : LoopTrace X rest) :
      LoopTrace X (hd ++ d :: (body ++ rest))

/-- The payloads of the frames of a byte stream in the order of their arrival,
as the wire format defines them: a 4-byte big-endian length, then that many
bytes of payload. The stream is read up to its first incomplete frame; the
first argument bounds the number of frames. -/
def frames_upto : Nat → List Nat → List (List Nat)
  | 0, _ => []
  | fuel + 1, b0 :: b1 :: b2 :: b3 :: rest =>
    if rest.length < be32 b0 b1 b2 b3 then []
    else rest.take (be32 b0 b1 b2 b3) :: frames_upto fuel (rest.drop (be32 b0 b1 b2 b3))
  | _ + 1, _ => []

/-- The payloads of the frames of a byte stream, in the order of arrival. -/
def frames (input : List Nat) : List (List Nat) :=
  frames_upto (input.length / 4 + 1) input

/-! ## Indices read by the table lookup -/

/-- The indices `m` at which the loop of `process_sftpjob` reads
`protocol->commands[m]`, in the order of the reads, for the loop started with
the given `l` and `r`; the loop is the one of `lookup`, with the same bound on
its iterations. -/
def lookup_probes (commands : List sftpcmd) (type : Int) : Nat → Int → Int → List Int
  | 0, _, _ => []
  | fuel + 1, l, r =>
    if l ≤ r then
      if l + r < INT_MIN ∨ INT_MAX < l + r then []
      else
        let m : Int := Int.tdiv (l + r) 2
        m :: (if m < 0 then []
          else
            match commands[m.toNat]? with
            | none => []
            | some c =>
              let mtype : Int := c.type
              if type < mtype then lookup_probes commands type fuel l (m - 1)
              else if type > mtype then lookup_probes commands type fuel (m + 1) r
              else [])
    else []

/-- A table with `INT_MAX` entries, all with operation code 0. -/
def hugeTable : List sftpcmd := List.replicate 2147483647 ⟨0, sample_handler 0⟩

/-! ## Sequences of processed jobs -/

/-- The jobs are processed one after the other by `process_sftpjob` (by `main`
itself before the handshake, by the workers that take them off the queue
afterwards), each on the globals the one before left; the run ends early when
a call does not come back. -/
def process_all (X : Env) : Globals → List sftpjob → Run
  | g, [] => ⟨g, [], none⟩
  | g, job :: jobs =>
    let r := process_sftpjob X g job
    match r.stop with
    | some _ => r
    | none => Run.after r.trace (process_all X r.globals jobs)

/-- The states of the globals reachable from the state at program start by
processing jobs. -/
inductive Reachable (X : Env) : Globals → Prop where
  | initial : Reachable X Globals.initial
  | step (g : Globals) (job : sftpjob) (h : Reachable X g) :
      Reachable X (process_sftpjob X g job).globals

/-- The handlers of the version-3 and version-4 tables, which are code outside
`sftpserver.c`, leave the globals `protocol` and `workqueue` of `sftpserver.c`
as they are and do not call `queue_init`. -/
def handlers_keep_globals (X : Env) : Prop :=
  ∀ p : Protocol, p ≠ Protocol.sftppreinit →
    ∀ c ∈ (protocolTable X p).commands, ∀ (g : Globals) (job : sftpjob),
      (c.handler g job).globals = g ∧ ∀ n, Event.queue_init n ∉ (c.handler g job).trace

/-- The calls made by `sftp_init`, each with the globals in force when the
call is made: the assignment to `protocol` comes before `send_begin`, the pool
is created by the last call. -/
def sftp_init_steps (X : Env) (g : Globals) (job : sftpjob) : List (Globals × Event) :=
  if g.protocol ≠ Protocol.sftppreinit then
    [(g, Event.send_status job.id X.SSH_FX_FAILURE "already initialized")]
  else
    match parse_uint32 job with
    | none =>
      [(g, Event.send_status job.id X.SSH_FX_BAD_MESSAGE
             "no version found in SSH_FXP_INIT")]
    | some (version, job) =>
      if version = 0 ∨ version = 1 ∨ version = 2 then
        [(g, Event.send_status job.id X.SSH_FX_OP_UNSUPPORTED
               "client protocol version is too old (need at least 3)")]
      else
        let version := if version = 3 ∨ version = 4 then version else 4
        let selected : Option Protocol :=
          if version = 3 then some Protocol.sftpv3
          else if version = 4 then some Protocol.sftpv4
          else none
        match selected with
        | none => []
        | some p =>
          let g1 : Globals := { g with protocol := p }
          [(g1, Event.send_begin),
           (g1, Event.send_uint8 X.SSH_FXP_VERSION),
           (g1, Event.send_uint32 version),
           (g1, Event.send_string "newline"),
           (g1, Event.send_string "\n"),
           (g1, Event.send_string "versions"),
           (g1, Event.send_string "3,4"),
           (g1, Event.send_end),
           (g1, Event.queue_init 4)]

/-- The calls that write the version reply for the version `n`. -/
def version_reply (X : Env) (n : Nat) : List Event :=
  [Event.send_begin, Event.send_uint8 X.SSH_FXP_VERSION, Event.send_uint32 n,
   Event.send_string "newline", Event.send_string "\n",
   Event.send_string "versions", Event.send_string "3,4", Event.send_end]

/-! ## Inline execution and submission -/

/-- The job is a handshake that succeeds when it is processed in the
uninitialized state: its type byte is `SSH_FXP_INIT`, four more bytes follow,
and the version they hold is at least 3. -/
def handshake_ok (X : Env) (job : sftpjob) : Bool :=
  job.byte 0 = X.SSH_FXP_INIT && 4 ≤ job.len - 1 &&
    3 ≤ be32 (job.byte 1) (job.byte 2) (job.byte 3) (job.byte 4)

/-- The framed jobs of a trace of `main` in order, each with `true` when `main`
executed it inline (`process_sftpjob`) and `false` when it submitted it to the
work queue (`queue_add`). -/
def executions : List Event → List (sftpjob × Bool)
  | [] => []
  | Event.process_sftpjob job :: es => (job, true) :: executions es
  | Event.queue_add job :: es => (job, false) :: executions es
  | _ :: es => executions es

/-- What the specification asks of a sequence of framed jobs: a job is executed
inline exactly when no job before it completed a successful handshake; the
first argument tells whether a handshake has succeeded already. -/
def expected_executions (X : Env) : Bool → List sftpjob → List (sftpjob × Bool)
  | _, [] => []
  | initialized, job :: jobs =>
    (job, !initialized) :: expected_executions X (initialized || handshake_ok X job) jobs

/-! ## Streams as frames -/

/-- The byte stream `input` consists of complete frames with the payloads
`payloads`, in order, each a 4-byte big-endian length followed by that many
bytes, and then of the bytes `rem`. -/
inductive Framed : List Nat → List (List Nat) → List Nat → Prop where
  | rest (rem : List Nat) : Framed rem [] rem
  | frame (b0 b1 b2 b3 : Nat) (payload tail : List Nat) (payloads : List (List Nat))
      (rem : List Nat) (hlen : payload.length = be32 b0 b1 b2 b3)
      (h : Framed tail payloads rem) :
      Framed (b0 :: b1 :: b2 :: b3 :: (payload ++ tail)) (payload :: payloads) rem

/-! ## Theorems: the handshake -/

theorem parse_uint32_id {job job' : sftpjob} {v : Nat}
    (h : parse_uint32 job = some (v, job')) : job'.id = job.id := by
  unfold parse_uint32 at h
  split at h
  · exact absurd h (by simp)
  · simp only [Option.some.injEq, Prod.mk.injEq] at h
    rw [← h.2]

/-- C1: a handshake offering a version `v ≥ 3` while the protocol state is the
pre-init table negotiates `n = v` for `v` 3 or 4 and `n = 4` for `v ≥ 5`,
switches the protocol state to the version-3 table when `n = 3` and to the
version-4 table when `n = 4`, and writes the single reply `SSH_FXP_VERSION`,
`uint32 n`, then the strings "newline", "\n", "versions", "3,4", in that
order; then it creates the worker pool. -/
theorem sftp_init_accepts (X : Env) (g : Globals) (job job' : sftpjob) (v : Nat)
    (hpre : g.protocol = Protocol.sftppreinit)
    (hparse : parse_uint32 job = some (v, job'))
    (hv : 3 ≤ v) :
    ∃ n : Nat,
      (v = 3 ∨ v = 4 → n = v) ∧ (5 ≤ v → n = 4) ∧
      (n = 3 → (sftp_init X g job).globals.protocol = Protocol.sftpv3) ∧
      (n = 4 → (sftp_init X g job).globals.protocol = Protocol.sftpv4) ∧
      (sftp_init X g job).globals.workqueue = some ⟨4⟩ ∧
      (sftp_init X g job).trace =
        [Event.send_begin, Event.send_uint8 X.SSH_FXP_VERSION, Event.send_uint32 n,
         Event.send_string "newline", Event.send_string "\n",
         Event.send_string "versions", Event.send_string "3,4", Event.send_end,
         Event.queue_init 4] ∧
      (sftp_init X g job).stop = none := by
  have h3 : v = 3 ∨ v = 4 ∨ 5 ≤ v := by omega
  rcases h3 with h | h | h
  · subst h
    exact ⟨3, by simp [sftp_init, hpre, hparse]⟩
  · subst h
    exact ⟨4, by simp [sftp_init, hpre, hparse]⟩
  · have e0 : v ≠ 0 := by omega
    have e1 : v ≠ 1 := by omega
    have e2 : v ≠ 2 := by omega
    have e3 : v ≠ 3 := by omega
    have e4 : v ≠ 4 := by omega
    exact ⟨4, by simp [sftp_init, hpre, hparse, e0, e1, e2, e3, e4]⟩

theorem sftp_init_accepts_witness :
    (Globals.initial).protocol = Protocol.sftppreinit ∧
    parse_uint32 ⟨5, [1, 0, 0, 0, 7], 1, 4, 0⟩ = some (7, ⟨5, [1, 0, 0, 0, 7], 5, 0, 0⟩) ∧
    3 ≤ 7 ∧
    ∃ n : Nat,
      ((7 : Nat) = 3 ∨ (7 : Nat) = 4 → n = 7) ∧ (5 ≤ 7 → n = 4) ∧
      (n = 3 → (sftp_init (sampleEnv Endian.big) Globals.initial
          ⟨5, [1, 0, 0, 0, 7], 1, 4, 0⟩).globals.protocol = Protocol.sftpv3) ∧
      (n = 4 → (sftp_init (sampleEnv Endian.big) Globals.initial
          ⟨5, [1, 0, 0, 0, 7], 1, 4, 0⟩).globals.protocol = Protocol.sftpv4) ∧
      (sftp_init (sampleEnv Endian.big) Globals.initial
          ⟨5, [1, 0, 0, 0, 7], 1, 4, 0⟩).globals.workqueue = some ⟨4⟩ ∧
      (sftp_init (sampleEnv Endian.big) Globals.initial
          ⟨5, [1, 0, 0, 0, 7], 1, 4, 0⟩).trace =
        [Event.send_begin, Event.send_uint8 (sampleEnv Endian.big).SSH_FXP_VERSION,
         Event.send_uint32 n,
         Event.send_string "newline", Event.send_string "\n",
         Event.send_string "versions", Event.send_string "3,4", Event.send_end,
         Event.queue_init 4] ∧
      (sftp_init (sampleEnv Endian.big) Globals.initial
          ⟨5, [1, 0, 0, 0, 7], 1, 4, 0⟩).stop = none :=
  ⟨rfl, by decide, by decide,
   sftp_init_accepts (sampleEnv Endian.big) Globals.initial
     ⟨5, [1, 0, 0, 0, 7], 1, 4, 0⟩ ⟨5, [1, 0, 0, 0, 7], 5, 0, 0⟩ 7 rfl (by decide) (by decide)⟩

/-- C2: a handshake in the uninitialized state with version 0, 1 or 2 is
answered by the one status reply "operation unsupported"; the protocol state
is still the pre-init table, the work queue is untouched and no worker pool is
created. -/
theorem sftp_init_too_old (X : Env) (g : Globals) (job job' : sftpjob) (v : Nat)
    (hpre : g.protocol = Protocol.sftppreinit)
    (hparse : parse_uint32 job = some (v, job'))
    (hv : v = 0 ∨ v = 1 ∨ v = 2) :
    sftp_init X g job =
        ⟨g, [Event.send_status job.id X.SSH_FX_OP_UNSUPPORTED
               "client protocol version is too old (need at least 3)"], none⟩ ∧
      (sftp_init X g job).globals.protocol = Protocol.sftppreinit ∧
      (sftp_init X g job).globals.workqueue = g.workqueue ∧
      ∀ n, Event.queue_init n ∉ (sftp_init X g job).trace := by
  have hid := parse_uint32_id hparse
  have h : sftp_init X g job =
      ⟨g, [Event.send_status job.id X.SSH_FX_OP_UNSUPPORTED
             "client protocol version is too old (need at least 3)"], none⟩ := by
    simp [sftp_init, hpre, hparse, hv, hid]
  rw [h]
  simp [hpre]

theorem sftp_init_too_old_witness :
    (Globals.initial).protocol = Protocol.sftppreinit ∧
    parse_uint32 ⟨5, [1, 0, 0, 0, 2], 1, 4, 0⟩ = some (2, ⟨5, [1, 0, 0, 0, 2], 5, 0, 0⟩) ∧
    ((2 : Nat) = 0 ∨ (2 : Nat) = 1 ∨ (2 : Nat) = 2) ∧
    (sftp_init (sampleEnv Endian.big) Globals.initial ⟨5, [1, 0, 0, 0, 2], 1, 4, 0⟩ =
        ⟨Globals.initial, [Event.send_status 0 (sampleEnv Endian.big).SSH_FX_OP_UNSUPPORTED
               "client protocol version is too old (need at least 3)"], none⟩ ∧
      (sftp_init (sampleEnv Endian.big) Globals.initial
        ⟨5, [1, 0, 0, 0, 2], 1, 4, 0⟩).globals.protocol = Protocol.sftppreinit ∧
      (sftp_init (sampleEnv Endian.big) Globals.initial
        ⟨5, [1, 0, 0, 0, 2], 1, 4, 0⟩).globals.workqueue = (Globals.initial).workqueue ∧
      ∀ n, Event.queue_init n ∉ (sftp_init (sampleEnv Endian.big) Globals.initial
        ⟨5, [1, 0, 0, 0, 2], 1, 4, 0⟩).trace) :=
  ⟨rfl, by decide, by decide,
   sftp_init_too_old (sampleEnv Endian.big) Globals.initial
     ⟨5, [1, 0, 0, 0, 2], 1, 4, 0⟩ ⟨5, [1, 0, 0, 0, 2], 5, 0, 0⟩ 2 rfl (by decide) (by decide)⟩

theorem sftp_init_already (X : Env) (g : Globals) (job : sftpjob)
    (h : g.protocol ≠ Protocol.sftppreinit) :
    sftp_init X g job =
      ⟨g, [Event.send_status job.id X.SSH_FX_FAILURE "already initialized"], none⟩ := by
  simp [sftp_init, h]

theorem sftp_init_no_version (X : Env) (g : Globals) (job : sftpjob)
    (hpre : g.protocol = Protocol.sftppreinit) (hparse : parse_uint32 job = none) :
    sftp_init X g job =
      ⟨g, [Event.send_status job.id X.SSH_FX_BAD_MESSAGE
             "no version found in SSH_FXP_INIT"], none⟩ := by
  simp [sftp_init, hpre, hparse]

theorem sftp_init_old (X : Env) (g : Globals) (job job' : sftpjob) (v : Nat)
    (hpre : g.protocol = Protocol.sftppreinit)
    (hparse : parse_uint32 job = some (v, job')) (hv : v ≤ 2) :
    sftp_init X g job =
      ⟨g, [Event.send_status job.id X.SSH_FX_OP_UNSUPPORTED
             "client protocol version is too old (need at least 3)"], none⟩ := by
  have hid := parse_uint32_id hparse
  have hv' : v = 0 ∨ v = 1 ∨ v = 2 := by omega
  simp [sftp_init, hpre, hparse, hv', hid]

theorem sftp_init_ok (X : Env) (g : Globals) (job job' : sftpjob) (v : Nat)
    (hpre : g.protocol = Protocol.sftppreinit)
    (hparse : parse_uint32 job = some (v, job')) (hv : 3 ≤ v) :
    sftp_init X g job =
      ⟨⟨if v = 3 then Protocol.sftpv3 else Protocol.sftpv4, some ⟨4⟩⟩,
       [Event.send_begin, Event.send_uint8 X.SSH_FXP_VERSION,
        Event.send_uint32 (if v = 3 then 3 else 4),
        Event.send_string "newline", Event.send_string "\n",
        Event.send_string "versions", Event.send_string "3,4", Event.send_end,
        Event.queue_init 4], none⟩ := by
  have h3 : v = 3 ∨ v = 4 ∨ 5 ≤ v := by omega
  rcases h3 with h | h | h
  · subst h
    simp [sftp_init, hpre, hparse]
  · subst h
    simp [sftp_init, hpre, hparse]
  · have e0 : v ≠ 0 := by omega
    have e1 : v ≠ 1 := by omega
    have e2 : v ≠ 2 := by omega
    have e3 : v ≠ 3 := by omega
    have e4 : v ≠ 4 := by omega
    simp [sftp_init, hpre, hparse, e0, e1, e2, e3, e4]

theorem sftp_init_protocol (X : Env) (g : Globals) (job : sftpjob) :
    (sftp_init X g job).globals = g ∨
      (g.protocol = Protocol.sftppreinit ∧
       (sftp_init X g job).globals.protocol ≠ Protocol.sftppreinit ∧
       (sftp_init X g job).globals.workqueue = some ⟨4⟩) := by
  by_cases h : g.protocol = Protocol.sftppreinit
  · cases hp : parse_uint32 job with
    | none => left; rw [sftp_init_no_version X g job h hp]
    | some q =>
      obtain ⟨v, job'⟩ := q
      by_cases hv : v ≤ 2
      · left; rw [sftp_init_old X g job job' v h hp hv]
      · right
        rw [sftp_init_ok X g job job' v h hp (by omega)]
        refine ⟨h, ?_, rfl⟩
        simp only
        split <;> simp
  · left
    rw [sftp_init_already X g job h]

theorem changes_init_states_of_init (X : Env) (g : Globals) (jobs : List sftpjob)
    (h : g.protocol ≠ Protocol.sftppreinit) :
    changes (init_states X g jobs) = 0 := by
  induction jobs generalizing g with
  | nil => rfl
  | cons job jobs ih =>
    have e : (sftp_init X g job).globals = g := by rw [sftp_init_already X g job h]
    have ih' := ih g h
    cases jobs with
    | nil => simp [init_states, changes, e]
    | cons j2 js =>
      simp only [init_states, changes, e] at ih' ⊢
      simpa using ih'

theorem init_states_head (X : Env) (g : Globals) (jobs : List sftpjob) :
    ∃ rest, init_states X g jobs = g.protocol :: rest := by
  cases jobs <;> exact ⟨_, rfl⟩

theorem changes_init_states_le (X : Env) (g : Globals) (jobs : List sftpjob) :
    changes (init_states X g jobs) ≤ 1 := by
  induction jobs generalizing g with
  | nil => simp [init_states, changes]
  | cons job jobs ih =>
    obtain ⟨rest, hrest⟩ := init_states_head X (sftp_init X g job).globals jobs
    have hstep : changes (init_states X g (job :: jobs)) =
        (if g.protocol = (sftp_init X g job).globals.protocol then 0 else 1) +
          changes (init_states X (sftp_init X g job).globals jobs) := by
      simp only [init_states]
      rw [hrest]
      rfl
    rw [hstep]
    rcases sftp_init_protocol X g job with e | ⟨_, e, _⟩
    · rw [e]
      have := ih g
      simpa using this
    · rw [changes_init_states_of_init X _ jobs e]
      split <;> omega

/-- C3: a handshake received when the protocol state is already the version-3
or the version-4 table, whatever its payload, is answered by the one status
reply "failure" ("already initialized"), leaves the protocol state and the work
queue as they were and creates no worker pool; hence along any sequence of
handshake requests, from any state, the protocol state changes at most
once. -/
theorem sftp_init_once (X : Env) (g : Globals) (job : sftpjob)
    (h : g.protocol = Protocol.sftpv3 ∨ g.protocol = Protocol.sftpv4) :
    sftp_init X g job =
        ⟨g, [Event.send_status job.id X.SSH_FX_FAILURE "already initialized"], none⟩ ∧
      (sftp_init X g job).globals.protocol = g.protocol ∧
      (sftp_init X g job).globals.workqueue = g.workqueue ∧
      (∀ n, Event.queue_init n ∉ (sftp_init X g job).trace) ∧
      ∀ (g0 : Globals) (jobs : List sftpjob), changes (init_states X g0 jobs) ≤ 1 := by
  have hne : g.protocol ≠ Protocol.sftppreinit := by
    rcases h with h | h <;> rw [h] <;> decide
  rw [sftp_init_already X g job hne]
  refine ⟨rfl, rfl, rfl, ?_, changes_init_states_le X⟩
  simp

theorem sftp_init_once_witness :
    ((⟨Protocol.sftpv4, some ⟨4⟩⟩ : Globals).protocol = Protocol.sftpv3 ∨
      (⟨Protocol.sftpv4, some ⟨4⟩⟩ : Globals).protocol = Protocol.sftpv4) ∧
    (sftp_init (sampleEnv Endian.big) ⟨Protocol.sftpv4, some ⟨4⟩⟩ ⟨5, [1, 0, 0, 0, 3], 1, 4, 0⟩ =
        ⟨⟨Protocol.sftpv4, some ⟨4⟩⟩,
         [Event.send_status 0 (sampleEnv Endian.big).SSH_FX_FAILURE "already initialized"],
         none⟩ ∧
      (sftp_init (sampleEnv Endian.big) ⟨Protocol.sftpv4, some ⟨4⟩⟩
        ⟨5, [1, 0, 0, 0, 3], 1, 4, 0⟩).globals.protocol = Protocol.sftpv4 ∧
      (sftp_init (sampleEnv Endian.big) ⟨Protocol.sftpv4, some ⟨4⟩⟩
        ⟨5, [1, 0, 0, 0, 3], 1, 4, 0⟩).globals.workqueue = some ⟨4⟩ ∧
      (∀ n, Event.queue_init n ∉ (sftp_init (sampleEnv Endian.big) ⟨Protocol.sftpv4, some ⟨4⟩⟩
        ⟨5, [1, 0, 0, 0, 3], 1, 4, 0⟩).trace) ∧
      ∀ (g0 : Globals) (jobs : List sftpjob),
        changes (init_states (sampleEnv Endian.big) g0 jobs) ≤ 1) :=
  ⟨Or.inr rfl,
   sftp_init_once (sampleEnv Endian.big) ⟨Protocol.sftpv4, some ⟨4⟩⟩
     ⟨5, [1, 0, 0, 0, 3], 1, 4, 0⟩ (Or.inr rfl)⟩

/-- C4: a handshake in the uninitialized state with fewer than 4 bytes after
the type byte makes `parse_uint32` fail and is answered by the one status
reply "bad message"; the protocol state stays the pre-init table and no worker
pool is created. -/
theorem sftp_init_bad_message (X : Env) (g : Globals) (job : sftpjob)
    (hpre : g.protocol = Protocol.sftppreinit) (hleft : job.left < 4) :
    parse_uint32 job = none ∧
      sftp_init X g job =
        ⟨g, [Event.send_status job.id X.SSH_FX_BAD_MESSAGE
               "no version found in SSH_FXP_INIT"], none⟩ ∧
      (sftp_init X g job).globals.protocol = Protocol.sftppreinit ∧
      (sftp_init X g job).globals.workqueue = g.workqueue ∧
      ∀ n, Event.queue_init n ∉ (sftp_init X g job).trace := by
  have hp : parse_uint32 job = none := by simp [parse_uint32, hleft]
  rw [sftp_init_no_version X g job hpre hp]
  simp [hp, hpre]

theorem sftp_init_bad_message_witness :
    (Globals.initial).protocol = Protocol.sftppreinit ∧
    (⟨3, [1, 0, 3], 1, 2, 0⟩ : sftpjob).left < 4 ∧
    (parse_uint32 ⟨3, [1, 0, 3], 1, 2, 0⟩ = none ∧
      sftp_init (sampleEnv Endian.big) Globals.initial ⟨3, [1, 0, 3], 1, 2, 0⟩ =
        ⟨Globals.initial, [Event.send_status 0 (sampleEnv Endian.big).SSH_FX_BAD_MESSAGE
               "no version found in SSH_FXP_INIT"], none⟩ ∧
      (sftp_init (sampleEnv Endian.big) Globals.initial
        ⟨3, [1, 0, 3], 1, 2, 0⟩).globals.protocol = Protocol.sftppreinit ∧
      (sftp_init (sampleEnv Endian.big) Globals.initial
        ⟨3, [1, 0, 3], 1, 2, 0⟩).globals.workqueue = (Globals.initial).workqueue ∧
      ∀ n, Event.queue_init n ∉ (sftp_init (sampleEnv Endian.big) Globals.initial
        ⟨3, [1, 0, 3], 1, 2, 0⟩).trace) :=
  ⟨rfl, by decide,
   sftp_init_bad_message (sampleEnv Endian.big) Globals.initial ⟨3, [1, 0, 3], 1, 2, 0⟩
     rfl (by decide)⟩

/-! ## Theorems: the table lookup -/

theorem ascending_get {cs : List sftpcmd} (h : ascending cs) {i j : Nat} {a b : sftpcmd}
    (hi : cs[i]? = some a) (hj : cs[j]? = some b) (hij : i < j) : a.type < b.type := by
  unfold ascending at h
  rw [List.pairwise_iff_getElem] at h
  obtain ⟨hi', rfl⟩ := List.getElem?_eq_some.mp hi
  obtain ⟨hj', rfl⟩ := List.getElem?_eq_some.mp hj
  exact h i j hi' hj' hij

theorem ascending_ge_index {cs : List sftpcmd} (h : ascending cs) :
    ∀ (i : Nat) (a : sftpcmd), cs[i]? = some a → i ≤ a.type := by
  intro i
  induction i with
  | zero => intro a _; exact Nat.zero_le _
  | succ k ih =>
    intro a ha
    have hk : k < cs.length := by
      have := (List.getElem?_eq_some.mp ha).1
      omega
    have hb : cs[k]? = some cs[k] := List.getElem?_eq_getElem hk
    have h1 := ih cs[k] hb
    have h2 := ascending_get h hb ha (Nat.lt_succ_self k)
    omega

theorem ascending_length_le {cs : List sftpcmd} (h : ascending cs)
    (hb : ∀ c ∈ cs, c.type < 256) : cs.length ≤ 256 := by
  by_contra hlen
  have hk : 256 < cs.length := by omega
  have e : cs[256]? = some cs[256] := List.getElem?_eq_getElem hk
  have h1 := ascending_ge_index h 256 _ e
  have h2 := hb cs[256] (List.getElem_mem _)
  omega

theorem lookup_spec (cs : List sftpcmd) (t : Nat) (hs : ascending cs)
    (hlen : cs.length ≤ 1073741824) :
    ∀ (fuel : Nat) (l r : Int), 0 ≤ l → r < cs.length → 0 < fuel → r + 1 - l < fuel →
      (∀ (i : Nat) (c : sftpcmd), cs[i]? = some c → (i : Int) < l → c.type < t) →
      (∀ (i : Nat) (c : sftpcmd), cs[i]? = some c → r < (i : Int) → t < c.type) →
      (∃ m c, cs[m]? = some c ∧ c.type = t ∧ lookup cs t fuel l r = Lookup.found m c) ∨
      ((∀ c ∈ cs, c.type ≠ t) ∧ lookup cs t fuel l r = Lookup.not_found) := by
  intro fuel
  induction fuel with
  | zero =>
    intro l r hl hr hf0 hf hlo hhi
    omega
  | succ fuel ih =>
    intro l r hl hr _ hf hlo hhi
    unfold lookup
    by_cases hlr : l ≤ r
    · have hov : ¬ (l + r < INT_MIN ∨ INT_MAX < l + r) := by
        unfold INT_MIN INT_MAX
        omega
      have hm : Int.tdiv (l + r) 2 = (l + r) / 2 := Int.tdiv_eq_ediv (by omega) (by omega)
      simp only [hlr, if_true, hov, if_false, hm]
      have hm0 : ¬ ((l + r) / 2 < 0) := by omega
      simp only [hm0, if_false]
      have hmlt : ((l + r) / 2).toNat < cs.length := by omega
      rw [List.getElem?_eq_getElem hmlt]
      simp only
      have hc : cs[((l + r) / 2).toNat]? = some cs[((l + r) / 2).toNat] :=
        List.getElem?_eq_getElem hmlt
      by_cases h1 : (t : Int) < (cs[((l + r) / 2).toNat].type : Int)
      · simp only [h1, if_true]
        apply ih l ((l + r) / 2 - 1) hl (by omega) (by omega) (by omega) hlo
        intro i c hi hgt
        have h1' : t < cs[((l + r) / 2).toNat].type := by exact_mod_cast h1
        by_cases hieq : i = ((l + r) / 2).toNat
        · subst hieq
          rw [hc] at hi
          cases hi
          exact h1'
        · have := ascending_get hs hc hi (by omega)
          omega
      · simp only [h1, if_false]
        by_cases h2 : (t : Int) > (cs[((l + r) / 2).toNat].type : Int)
        · simp only [h2, if_true]
          apply ih ((l + r) / 2 + 1) r (by omega) hr (by omega) (by omega) _ hhi
          intro i c hi hlt
          have h2' : cs[((l + r) / 2).toNat].type < t := by exact_mod_cast h2
          by_cases hieq : i = ((l + r) / 2).toNat
          · subst hieq
            rw [hc] at hi
            cases hi
            exact h2'
          · have := ascending_get hs hi hc (by omega)
            omega
        · simp only [h2, if_false]
          left
          refine ⟨_, _, hc, ?_, rfl⟩
          have h1' : ¬ (t < cs[((l + r) / 2).toNat].type) := by exact_mod_cast h1
          have h2' : ¬ (cs[((l + r) / 2).toNat].type < t) := by exact_mod_cast h2
          omega
    · simp only [hlr, if_false]
      right
      refine ⟨?_, trivial⟩
      intro c hc
      obtain ⟨i, hi, rfl⟩ := List.getElem_of_mem hc
      have hci : cs[i]? = some cs[i] := List.getElem?_eq_getElem hi
      by_cases hil : (i : Int) < l
      · have := hlo i _ hci hil
        omega
      · have := hhi i _ hci (by omega)
        omega

theorem linear_scan_none (cs : List sftpcmd) (t k : Nat) (h : ∀ c ∈ cs, c.type ≠ t) :
    linear_scan cs t k = Lookup.not_found := by
  induction cs generalizing k with
  | nil => rfl
  | cons c cs ih =>
    have hc : c.type ≠ t := h c (List.mem_cons_self _ _)
    simp only [linear_scan, hc, if_false]
    exact ih (k + 1) (fun c' hc' => h c' (List.mem_cons_of_mem _ hc'))

theorem linear_scan_found (cs : List sftpcmd) (t : Nat) (hs : ascending cs) :
    ∀ (m k : Nat) (c : sftpcmd), cs[m]? = some c → c.type = t →
      linear_scan cs t k = Lookup.found (k + m) c := by
  induction cs with
  | nil => intro m k c h; simp at h
  | cons a cs ih =>
    intro m k c hm ht
    cases m with
    | zero =>
      simp only [List.getElem?_cons_zero, Option.some.injEq] at hm
      subst hm
      simp [linear_scan, ht]
    | succ m =>
      simp only [List.getElem?_cons_succ] at hm
      have ha : a.type ≠ t := by
        have h0 : (a :: cs)[0]? = some a := by simp
        have h1 : (a :: cs)[m + 1]? = some c := by simpa using hm
        have := ascending_get hs h0 h1 (Nat.succ_pos m)
        omega
      simp only [linear_scan, ha, if_false]
      have hs' : ascending cs := (List.pairwise_cons.mp hs).2
      rw [ih hs' m (k + 1) c hm ht]
      congr 1
      omega

theorem lookup_eq_linear_scan (cs : List sftpcmd) (t : Nat) (hs : ascending cs)
    (hb : ∀ c ∈ cs, c.type < 256) :
    lookup cs t (cs.length + 1) 0 ((cs.length : Int) - 1) = linear_scan cs t 0 := by
  have hlen := ascending_length_le hs hb
  rcases lookup_spec cs t hs (by omega) (cs.length + 1) 0 ((cs.length : Int) - 1)
      (le_refl _) (by omega) (by omega) (by push_cast; omega)
      (fun i c _ hi => by omega) (fun i c hi hr => by
        have := (List.getElem?_eq_some.mp hi).1
        omega) with ⟨m, c, hm, ht, e⟩ | ⟨hnone, e⟩
  · rw [e, linear_scan_found cs t hs m 0 c hm ht, Nat.zero_add]
  · rw [e, linear_scan_none cs t 0 hnone]

theorem locate_handler_eq_linear (X : Env) (g : Globals) (job : sftpjob) (t : Nat)
    (hs : ascending (protocolTable X g.protocol).commands)
    (hb : ∀ c ∈ (protocolTable X g.protocol).commands, c.type < 256) :
    locate_handler X g job t = locate_handler_linear X g job t := by
  unfold locate_handler locate_handler_linear sftpprotocol.ncommands
  simp only
  rw [lookup_eq_linear_scan _ t hs hb]

/-- C5: on a table sorted strictly ascending by operation code (a byte), the
binary search of `process_sftpjob` selects the entry a linear scan selects, for
every type `t`: the entry whose code is `t` when there is one, none otherwise.
Under such an active table `process_sftpjob` behaves as the dispatcher that
scans linearly; it invokes the handler of the entry whose code is `t` when one
exists, and otherwise invokes no handler and replies "operation
unsupported". -/
theorem lookup_refines_linear_scan (cs : List sftpcmd) (hs : ascending cs)
    (hb : ∀ c ∈ cs, c.type < 256) :
    (∀ t : Nat, lookup cs t (cs.length + 1) 0 ((cs.length : Int) - 1) = linear_scan cs t 0) ∧
    (∀ (t m : Nat) (c : sftpcmd), cs[m]? = some c → c.type = t →
        lookup cs t (cs.length + 1) 0 ((cs.length : Int) - 1) = Lookup.found m c) ∧
    (∀ t : Nat, (∀ c ∈ cs, c.type ≠ t) →
        lookup cs t (cs.length + 1) 0 ((cs.length : Int) - 1) = Lookup.not_found) ∧
    ∀ (X : Env) (g : Globals), (protocolTable X g.protocol).commands = cs →
      (∀ jv : sftpjob, process_sftpjob X g jv = process_sftpjob_linear X g jv) ∧
      (∀ (job : sftpjob) (t m : Nat) (c : sftpcmd), cs[m]? = some c → c.type = t →
          locate_handler X g job t =
            ⟨(c.handler g job).globals, Event.handler m job :: (c.handler g job).trace,
             (c.handler g job).stop⟩) ∧
      (∀ (job : sftpjob) (t : Nat), (∀ c ∈ cs, c.type ≠ t) →
          locate_handler X g job t =
            ⟨g, [Event.send_status job.id X.SSH_FX_OP_UNSUPPORTED
                   "operation not supported"], none⟩) := by
  have hfound : ∀ (t m : Nat) (c : sftpcmd), cs[m]? = some c → c.type = t →
      lookup cs t (cs.length + 1) 0 ((cs.length : Int) - 1) = Lookup.found m c := by
    intro t m c hm ht
    rw [lookup_eq_linear_scan cs t hs hb, linear_scan_found cs t hs m 0 c hm ht, Nat.zero_add]
  have hnone : ∀ t : Nat, (∀ c ∈ cs, c.type ≠ t) →
      lookup cs t (cs.length + 1) 0 ((cs.length : Int) - 1) = Lookup.not_found := by
    intro t h
    rw [lookup_eq_linear_scan cs t hs hb, linear_scan_none cs t 0 h]
  refine ⟨fun t => lookup_eq_linear_scan cs t hs hb, hfound, hnone, ?_⟩
  intro X g hcs
  subst hcs
  refine ⟨?_, ?_, ?_⟩
  · intro jv
    unfold process_sftpjob process_sftpjob_linear
    simp only [locate_handler_eq_linear X g _ _ hs hb]
  · intro job t m c hm ht
    unfold locate_handler sftpprotocol.ncommands
    simp only
    rw [hfound t m c hm ht]
  · intro job t h
    unfold locate_handler sftpprotocol.ncommands
    simp only
    rw [hnone t h]

theorem lookup_refines_linear_scan_witness :
    ascending sampleTable ∧ (∀ c ∈ sampleTable, c.type < 256) ∧
    (∀ t : Nat,
      lookup sampleTable t (sampleTable.length + 1) 0 ((sampleTable.length : Int) - 1) =
        linear_scan sampleTable t 0) :=
  ⟨by simp [ascending, sampleTable], by simp [sampleTable],
   (lookup_refines_linear_scan sampleTable (by simp [ascending, sampleTable])
      (by simp [sampleTable])).1⟩

/-! ## Theorems: the dispatcher -/

theorem process_sftpjob_empty (X : Env) (g : Globals) (jv : sftpjob) (h : jv.len = 0) :
    process_sftpjob X g jv =
      ⟨g, [Event.send_status 0 X.SSH_FX_BAD_MESSAGE "empty request",
           Event.serialize_remove_job, Event.free_data, Event.free_job], none⟩ := by
  simp [process_sftpjob, h, done]

theorem process_sftpjob_missing_id (X : Env) (g : Globals) (jv : sftpjob)
    (hlen : jv.len ≠ 0) (ht : jv.byte 0 ≠ X.SSH_FXP_INIT) (hshort : jv.len < 5) :
    process_sftpjob X g jv =
      ⟨g, [Event.send_status 0 X.SSH_FX_BAD_MESSAGE "missing ID field",
           Event.serialize_remove_job, Event.free_data, Event.free_job], none⟩ := by
  have hp : jv.len - 1 < 4 := by omega
  have hb : ¬ (jv.data[0]?.getD 0 = X.SSH_FXP_INIT) := by simpa [sftpjob.byte] using ht
  simp [process_sftpjob, hlen, sftpjob.byte, hb, parse_uint32, hp, done]

theorem process_sftpjob_init (X : Env) (g : Globals) (jv : sftpjob)
    (hlen : jv.len ≠ 0) (ht : jv.byte 0 = X.SSH_FXP_INIT) :
    process_sftpjob X g jv =
      done (locate_handler X g { jv with id := 0, ptr := 1, left := jv.len - 1 }
        X.SSH_FXP_INIT) := by
  have hb : jv.data[0]?.getD 0 = X.SSH_FXP_INIT := by simpa [sftpjob.byte] using ht
  simp [process_sftpjob, hlen, sftpjob.byte, hb]

theorem process_sftpjob_with_id (X : Env) (g : Globals) (jv : sftpjob)
    (ht : jv.byte 0 ≠ X.SSH_FXP_INIT) (hlong : 5 ≤ jv.len) :
    process_sftpjob X g jv =
      done (locate_handler X g
        { jv with id := be32 (jv.byte 1) (jv.byte 2) (jv.byte 3) (jv.byte 4),
                  ptr := 5, left := jv.len - 5 }
        (jv.byte 0)) := by
  have hlen : jv.len ≠ 0 := by omega
  have hp : ¬ (jv.len - 1 < 4) := by omega
  have hb : ¬ (jv.data[0]?.getD 0 = X.SSH_FXP_INIT) := by simpa [sftpjob.byte] using ht
  have e : jv.len - 1 - 4 = jv.len - 5 := by omega
  simp [process_sftpjob, hlen, sftpjob.byte, hb, parse_uint32, hp, e]

/-- C6: a job whose declared length is 0 is answered, under every protocol
table, by the one status reply "bad message" with the message "empty request";
no handler is invoked, and the outcome is the same whatever the payload buffer
holds: no payload byte is read. -/
theorem process_sftpjob_empty_request (X : Env) (g : Globals) (jv : sftpjob)
    (h : jv.len = 0) :
    process_sftpjob X g jv =
        ⟨g, [Event.send_status 0 X.SSH_FX_BAD_MESSAGE "empty request",
             Event.serialize_remove_job, Event.free_data, Event.free_job], none⟩ ∧
      ¬ invokes_handler (process_sftpjob X g jv).trace ∧
      ∀ data : List Nat,
        process_sftpjob X g { jv with data := data } = process_sftpjob X g jv := by
  refine ⟨process_sftpjob_empty X g jv h, ?_, ?_⟩
  · rw [process_sftpjob_empty X g jv h]
    simp [invokes_handler]
  · intro data
    rw [process_sftpjob_empty X g jv h]
    exact process_sftpjob_empty X g _ h

theorem process_sftpjob_empty_request_witness :
    (⟨0, [], 0, 0, 0⟩ : sftpjob).len = 0 ∧
    (process_sftpjob (sampleEnv Endian.big) Globals.initial ⟨0, [], 0, 0, 0⟩ =
        ⟨Globals.initial,
         [Event.send_status 0 (sampleEnv Endian.big).SSH_FX_BAD_MESSAGE "empty request",
          Event.serialize_remove_job, Event.free_data, Event.free_job], none⟩ ∧
      ¬ invokes_handler
          (process_sftpjob (sampleEnv Endian.big) Globals.initial ⟨0, [], 0, 0, 0⟩).trace ∧
      ∀ data : List Nat,
        process_sftpjob (sampleEnv Endian.big) Globals.initial
            { (⟨0, [], 0, 0, 0⟩ : sftpjob) with data := data } =
          process_sftpjob (sampleEnv Endian.big) Globals.initial ⟨0, [], 0, 0, 0⟩) :=
  ⟨rfl, process_sftpjob_empty_request (sampleEnv Endian.big) Globals.initial
          ⟨0, [], 0, 0, 0⟩ rfl⟩

/-- C7: for a non-empty job, when the type byte is not the handshake operation
and fewer than 4 bytes follow it, the answer is the one status reply "bad
message" with the message "missing ID field" and no handler is invoked; when
the type byte is the handshake operation no identifier is parsed: the job goes
to the table lookup with the cursor right after the type byte, also when the
type byte is the whole payload. -/
theorem process_sftpjob_id_field (X : Env) (g : Globals) (jv : sftpjob)
    (hlen : jv.len ≠ 0) :
    (jv.byte 0 ≠ X.SSH_FXP_INIT → jv.len - 1 < 4 →
        process_sftpjob X g jv =
          ⟨g, [Event.send_status 0 X.SSH_FX_BAD_MESSAGE "missing ID field",
               Event.serialize_remove_job, Event.free_data, Event.free_job], none⟩ ∧
        ¬ invokes_handler (process_sftpjob X g jv).trace) ∧
    (jv.byte 0 = X.SSH_FXP_INIT →
        process_sftpjob X g jv =
          done (locate_handler X g { jv with id := 0, ptr := 1, left := jv.len - 1 }
            X.SSH_FXP_INIT)) := by
  refine ⟨?_, process_sftpjob_init X g jv hlen⟩
  intro ht hshort
  rw [process_sftpjob_missing_id X g jv hlen ht (by omega)]
  refine ⟨rfl, ?_⟩
  simp [invokes_handler]

theorem process_sftpjob_id_field_witness :
    (⟨1, [1], 0, 0, 0⟩ : sftpjob).len ≠ 0 ∧
    ((⟨1, [1], 0, 0, 0⟩ : sftpjob).byte 0 = (sampleEnv Endian.big).SSH_FXP_INIT ∧
      (⟨1, [1], 0, 0, 0⟩ : sftpjob).len - 1 < 4) ∧
    process_sftpjob (sampleEnv Endian.big) Globals.initial ⟨1, [1], 0, 0, 0⟩ =
      done (locate_handler (sampleEnv Endian.big) Globals.initial ⟨1, [1], 1, 0, 0⟩
        (sampleEnv Endian.big).SSH_FXP_INIT) ∧
    done (locate_handler (sampleEnv Endian.big) Globals.initial ⟨1, [1], 1, 0, 0⟩
        (sampleEnv Endian.big).SSH_FXP_INIT) =
      ⟨Globals.initial,
       [Event.handler 0 ⟨1, [1], 1, 0, 0⟩,
        Event.send_status 0 (sampleEnv Endian.big).SSH_FX_BAD_MESSAGE
          "no version found in SSH_FXP_INIT",
        Event.serialize_remove_job, Event.free_data, Event.free_job], none⟩ :=
  ⟨by decide, ⟨by decide, by decide⟩,
   (process_sftpjob_id_field (sampleEnv Endian.big) Globals.initial ⟨1, [1], 0, 0, 0⟩
      (by decide)).2 (by decide),
   by decide⟩

theorem lookup_total (cs : List sftpcmd) (t : Int) (hlen : cs.length ≤ 1073741824) :
    ∀ (fuel : Nat) (l r : Int), 0 ≤ l → r < cs.length → 0 < fuel → r + 1 - l < fuel →
      (∃ m c, cs[m]? = some c ∧ lookup cs t fuel l r = Lookup.found m c) ∨
      lookup cs t fuel l r = Lookup.not_found := by
  intro fuel
  induction fuel with
  | zero => intro l r _ _ hf0 _; omega
  | succ fuel ih =>
    intro l r hl hr _ hf
    unfold lookup
    by_cases hlr : l ≤ r
    · have hov : ¬ (l + r < INT_MIN ∨ INT_MAX < l + r) := by
        unfold INT_MIN INT_MAX
        omega
      have hm : Int.tdiv (l + r) 2 = (l + r) / 2 := Int.tdiv_eq_ediv (by omega) (by omega)
      simp only [hlr, if_true, hov, if_false, hm]
      have hm0 : ¬ ((l + r) / 2 < 0) := by omega
      simp only [hm0, if_false]
      have hmlt : ((l + r) / 2).toNat < cs.length := by omega
      rw [List.getElem?_eq_getElem hmlt]
      simp only
      by_cases h1 : t < (cs[((l + r) / 2).toNat].type : Int)
      · simp only [h1, if_true]
        exact ih l ((l + r) / 2 - 1) hl (by omega) (by omega) (by omega)
      · simp only [h1, if_false]
        by_cases h2 : t > (cs[((l + r) / 2).toNat].type : Int)
        · simp only [h2, if_true]
          exact ih ((l + r) / 2 + 1) r (by omega) hr (by omega) (by omega)
        · simp only [h2, if_false]
          exact Or.inl ⟨_, _, List.getElem?_eq_getElem hmlt, rfl⟩
    · simp only [hlr, if_false]
      exact Or.inr trivial

theorem replies_append (a b : List Event) : replies (a ++ b) = replies a + replies b := by
  induction a with
  | nil => simp [replies]
  | cons e a ih =>
    cases e <;> simp [replies, ih] <;> omega

theorem replies_done (r : Run) : replies (done r).trace = replies r.trace := by
  unfold done
  split
  · rfl
  · simp [replies_append, replies]

theorem sftp_init_replies (X : Env) (g : Globals) (job : sftpjob) :
    replies (sftp_init X g job).trace = 1 := by
  by_cases h : g.protocol = Protocol.sftppreinit
  · cases hp : parse_uint32 job with
    | none => rw [sftp_init_no_version X g job h hp]; rfl
    | some q =>
      obtain ⟨v, job'⟩ := q
      by_cases hv : v ≤ 2
      · rw [sftp_init_old X g job job' v h hp hv]; rfl
      · rw [sftp_init_ok X g job job' v h hp (by omega)]; rfl
  · rw [sftp_init_already X g job h]; rfl

theorem locate_handler_replies (X : Env) (g : Globals) (job : sftpjob) (t : Nat)
    (hlen : (protocolTable X g.protocol).commands.length ≤ 1073741824)
    (hone : ∀ c ∈ (protocolTable X g.protocol).commands,
      ∀ (g' : Globals) (j : sftpjob), replies (c.handler g' j).trace = 1) :
    replies (locate_handler X g job t).trace = 1 := by
  unfold locate_handler sftpprotocol.ncommands
  simp only
  rcases lookup_total (protocolTable X g.protocol).commands t hlen
      ((protocolTable X g.protocol).commands.length + 1) 0
      (((protocolTable X g.protocol).commands.length : Int) - 1)
      (le_refl _) (by omega) (by omega) (by push_cast; omega) with ⟨m, c, hm, e⟩ | e
  · rw [e]
    simp only [replies]
    exact hone c (List.getElem?_mem hm) g job
  · rw [e]
    rfl

theorem process_sftpjob_replies (X : Env) (g : Globals) (jv : sftpjob)
    (hlen : (protocolTable X g.protocol).commands.length ≤ 1073741824)
    (hone : ∀ c ∈ (protocolTable X g.protocol).commands,
      ∀ (g' : Globals) (j : sftpjob), replies (c.handler g' j).trace = 1) :
    replies (process_sftpjob X g jv).trace = 1 := by
  by_cases h0 : jv.len = 0
  · rw [process_sftpjob_empty X g jv h0]; rfl
  · by_cases ht : jv.byte 0 = X.SSH_FXP_INIT
    · rw [process_sftpjob_init X g jv h0 ht, replies_done]
      exact locate_handler_replies X g _ _ hlen hone
    · by_cases hs : jv.len < 5
      · rw [process_sftpjob_missing_id X g jv h0 ht hs]; rfl
      · rw [process_sftpjob_with_id X g jv ht (by omega), replies_done]
        exact locate_handler_replies X g _ _ hlen hone

theorem process_sftpjob_preinit_replies (X : Env) (g : Globals) (jv : sftpjob)
    (hpre : g.protocol = Protocol.sftppreinit) :
    replies (process_sftpjob X g jv).trace = 1 := by
  apply process_sftpjob_replies
  · rw [hpre]; simp [protocolTable, sftppreinit, sftppreinittab]
  · rw [hpre]
    intro c hc g' j
    simp only [protocolTable, sftppreinit, sftppreinittab, List.mem_singleton] at hc
    subst hc
    exact sftp_init_replies X g' j

/-- C8: whatever the payload of a job, `process_sftpjob` writes exactly one
reply, given that each handler of the active table writes exactly one reply
(and that the table has at most 2^30 entries, so that `l + r` stays an `int`);
under the pre-init table, whose only handler is `sftp_init`, every payload
yields exactly one reply, with nothing assumed. -/
theorem process_sftpjob_one_reply (X : Env) (g : Globals) (jv : sftpjob)
    (hlen : (protocolTable X g.protocol).commands.length ≤ 1073741824)
    (hone : ∀ c ∈ (protocolTable X g.protocol).commands,
      ∀ (g' : Globals) (j : sftpjob), replies (c.handler g' j).trace = 1) :
    replies (process_sftpjob X g jv).trace = 1 ∧
    ∀ (g0 : Globals) (jv0 : sftpjob), g0.protocol = Protocol.sftppreinit →
      replies (process_sftpjob X g0 jv0).trace = 1 :=
  ⟨process_sftpjob_replies X g jv hlen hone,
   fun g0 jv0 h0 => process_sftpjob_preinit_replies X g0 jv0 h0⟩

theorem process_sftpjob_one_reply_witness :
    (protocolTable (sampleEnv Endian.big)
      (⟨Protocol.sftpv3, some ⟨4⟩⟩ : Globals).protocol).commands.length ≤ 1073741824 ∧
    (∀ c ∈ (protocolTable (sampleEnv Endian.big)
        (⟨Protocol.sftpv3, some ⟨4⟩⟩ : Globals).protocol).commands,
      ∀ (g' : Globals) (j : sftpjob), replies (c.handler g' j).trace = 1) ∧
    replies (process_sftpjob (sampleEnv Endian.big) ⟨Protocol.sftpv3, some ⟨4⟩⟩
      ⟨6, [5, 0, 0, 0, 9, 7], 0, 0, 0⟩).trace = 1 ∧
    process_sftpjob (sampleEnv Endian.big) ⟨Protocol.sftpv3, some ⟨4⟩⟩
        ⟨6, [5, 0, 0, 0, 9, 7], 0, 0, 0⟩ =
      ⟨⟨Protocol.sftpv3, some ⟨4⟩⟩,
       [Event.handler 1 ⟨6, [5, 0, 0, 0, 9, 7], 5, 1, 9⟩,
        Event.send_status 9 1 "sample",
        Event.serialize_remove_job, Event.free_data, Event.free_job], none⟩ :=
  ⟨by decide,
   by
     intro c hc g' j
     simp only [protocolTable, sampleEnv, sampleTable, List.mem_cons, List.mem_singleton,
       List.not_mem_nil, or_false] at hc
     rcases hc with h | h | h | h <;> subst h <;> rfl,
   (process_sftpjob_one_reply (sampleEnv Endian.big) ⟨Protocol.sftpv3, some ⟨4⟩⟩
      ⟨6, [5, 0, 0, 0, 9, 7], 0, 0, 0⟩ (by decide)
      (by
        intro c hc g' j
        simp only [protocolTable, sampleEnv, sampleTable, List.mem_cons, List.mem_singleton,
          List.not_mem_nil, or_false] at hc
        rcases hc with h | h | h | h <;> subst h <;> rfl)).1,
   by decide⟩

/-! ## Theorems: the main loop -/

theorem locate_handler_preinit (X : Env) (g : Globals) (job : sftpjob) (t : Nat)
    (hpre : g.protocol = Protocol.sftppreinit) :
    locate_handler X g job t =
      if t = X.SSH_FXP_INIT then
        ⟨(sftp_init X g job).globals, Event.handler 0 job :: (sftp_init X g job).trace,
         (sftp_init X g job).stop⟩
      else
        ⟨g, [Event.send_status job.id X.SSH_FX_OP_UNSUPPORTED "operation not supported"],
         none⟩ := by
  unfold locate_handler sftpprotocol.ncommands
  rw [hpre]
  simp only [protocolTable, sftppreinit, sftppreinittab]
  rcases Nat.lt_trichotomy t X.SSH_FXP_INIT with h | h | h
  · have h' : (t : Int) < (X.SSH_FXP_INIT : Int) := by exact_mod_cast h
    have hne : t ≠ X.SSH_FXP_INIT := by omega
    simp [lookup, INT_MIN, INT_MAX, h', hne]
  · subst h
    simp [lookup, INT_MIN, INT_MAX]
  · have h' : (X.SSH_FXP_INIT : Int) < (t : Int) := by exact_mod_cast h
    have h'' : ¬ ((t : Int) < (X.SSH_FXP_INIT : Int)) := by omega
    have hne : t ≠ X.SSH_FXP_INIT := by omega
    simp [lookup, INT_MIN, INT_MAX, h', h'', hne]

theorem sftp_init_quiet (X : Env) (g : Globals) (job : sftpjob) :
    (sftp_init X g job).quiet g := by
  by_cases h : g.protocol = Protocol.sftppreinit
  · cases hp : parse_uint32 job with
    | none =>
      rw [sftp_init_no_version X g job h hp]
      exact ⟨rfl, by simp [Event.of_loop], Or.inl rfl⟩
    | some q =>
      obtain ⟨v, job'⟩ := q
      by_cases hv : v ≤ 2
      · rw [sftp_init_old X g job job' v h hp hv]
        exact ⟨rfl, by simp [Event.of_loop], Or.inl rfl⟩
      · rw [sftp_init_ok X g job job' v h hp (by omega)]
        refine ⟨rfl, by simp [Event.of_loop], Or.inr ⟨?_, rfl⟩⟩
        simp only
        split <;> simp
  · rw [sftp_init_already X g job h]
    exact ⟨rfl, by simp [Event.of_loop], Or.inl rfl⟩

theorem done_quiet {g : Globals} {r : Run} (h : r.quiet g) : (done r).quiet g := by
  obtain ⟨h1, h2, h3⟩ := h
  have e : done r = { r with trace := r.trace ++
      [Event.serialize_remove_job, Event.free_data, Event.free_job] } := by
    unfold done
    rw [h1]
  rw [e]
  refine ⟨h1, ?_, h3⟩
  intro e he
  simp only [List.mem_append, List.mem_cons, List.mem_singleton, List.not_mem_nil,
    or_false] at he
  rcases he with he | he | he | he
  · exact h2 e he
  · subst he; rfl
  · subst he; rfl
  · subst he; rfl

theorem locate_handler_preinit_quiet (X : Env) (g : Globals) (job : sftpjob) (t : Nat)
    (hpre : g.protocol = Protocol.sftppreinit) : (locate_handler X g job t).quiet g := by
  rw [locate_handler_preinit X g job t hpre]
  obtain ⟨h1, h2, h3⟩ := sftp_init_quiet X g job
  split
  · refine ⟨h1, ?_, h3⟩
    intro e he
    simp only [List.mem_cons] at he
    rcases he with he | he
    · subst he; rfl
    · exact h2 e he
  · exact ⟨rfl, by simp [Event.of_loop], Or.inl rfl⟩

theorem process_sftpjob_preinit_quiet (X : Env) (g : Globals) (jv : sftpjob)
    (hpre : g.protocol = Protocol.sftppreinit) : (process_sftpjob X g jv).quiet g := by
  by_cases h0 : jv.len = 0
  · rw [process_sftpjob_empty X g jv h0]
    exact ⟨rfl, by simp [Event.of_loop], Or.inl rfl⟩
  · by_cases ht : jv.byte 0 = X.SSH_FXP_INIT
    · rw [process_sftpjob_init X g jv h0 ht]
      exact done_quiet (locate_handler_preinit_quiet X g _ _ hpre)
    · by_cases hs : jv.len < 5
      · rw [process_sftpjob_missing_id X g jv h0 ht hs]
        exact ⟨rfl, by simp [Event.of_loop], Or.inl rfl⟩
      · rw [process_sftpjob_with_id X g jv ht (by omega)]
        exact done_quiet (locate_handler_preinit_quiet X g _ _ hpre)

theorem registered_append (a b : List Event) :
    registered (a ++ b) = registered a ++ registered b := by
  induction a with
  | nil => rfl
  | cons e a ih => cases e <;> simp [registered, ih]

theorem dispatched_append (a b : List Event) :
    dispatched (a ++ b) = dispatched a ++ dispatched b := by
  induction a with
  | nil => rfl
  | cons e a ih => cases e <;> simp [dispatched, ih]

theorem registered_of_not_loop (a : List Event) (h : ∀ e ∈ a, e.of_loop = false) :
    registered a = [] := by
  induction a with
  | nil => rfl
  | cons e a ih =>
    have he := h e (List.mem_cons_self _ _)
    have ha := ih (fun e' he' => h e' (List.mem_cons_of_mem _ he'))
    cases e <;> simp_all [registered, Event.of_loop]

theorem dispatched_of_not_loop (a : List Event) (h : ∀ e ∈ a, e.of_loop = false) :
    dispatched a = [] := by
  induction a with
  | nil => rfl
  | cons e a ih =>
    have he := h e (List.mem_cons_self _ _)
    have ha := ih (fun e' he' => h e' (List.mem_cons_of_mem _ he'))
    cases e <;> simp_all [dispatched, Event.of_loop]

theorem dispatches_of_loop {e : Event} {job : sftpjob} (h : e.dispatches job) :
    e.of_loop = true := by
  rcases h with h | h <;> subst h <;> rfl

theorem dispatched_cons_of_dispatches {e : Event} {job : sftpjob} (h : e.dispatches job)
    (l : List Event) : dispatched (e :: l) = job :: dispatched l ∧
      registered (e :: l) = registered l := by
  rcases h with h | h <;> subst h <;> exact ⟨rfl, rfl⟩

theorem dispatches_inj {e : Event} {j j' : sftpjob} (h : e.dispatches j)
    (h' : e.dispatches j') : j = j' := by
  rcases h with h | h <;> rcases h' with h' | h' <;> subst h <;> cases h' <;> rfl

theorem mem_dispatched {e : Event} {job : sftpjob} (h : e.dispatches job)
    {l : List Event} (hl : e ∈ l) : job ∈ dispatched l := by
  induction l with
  | nil => simp at hl
  | cons a l ih =>
    rcases List.mem_cons.mp hl with he | he
    · subst he
      rw [(dispatched_cons_of_dispatches h l).1]
      exact List.mem_cons_self _ _
    · have := ih he
      cases a <;> simp [dispatched, this]

theorem loopTrace_registered (X : Env) {tr : List Event} (h : LoopTrace X tr) :
    registered tr = (dispatched tr).filter (serializable X) := by
  induction h with
  | last tl h => rw [registered_of_not_loop tl h, dispatched_of_not_loop tl h]; rfl
  | block hd d body rest job hhd hreg hd_job hbody _ ih =>
    rw [registered_append, dispatched_append, (dispatched_cons_of_dispatches hd_job _).1,
      (dispatched_cons_of_dispatches hd_job _).2, registered_append, dispatched_append,
      registered_of_not_loop body hbody, dispatched_of_not_loop body hbody, hhd, hreg, ih]
    simp only [List.nil_append, List.append_nil, ← List.filter_append, List.singleton_append,
      List.cons_append]

theorem loopTrace_before (X : Env) {tr : List Event} (h : LoopTrace X tr) :
    ∀ (pre post : List Event) (e : Event) (j : sftpjob), tr = pre ++ e :: post →
      e.dispatches j →
      registered pre = (dispatched pre ++ [j]).filter (serializable X) := by
  induction h with
  | last tl h =>
    intro pre post e j htr he
    have hmem : e ∈ tl := by rw [htr]; simp
    have := h e hmem
    rw [dispatches_of_loop he] at this
    cases this
  | block hd d body rest job hhd hreg hd_job hbody _ ih =>
    intro pre post e j htr he
    have hnot_hd : e ∉ hd := by
      intro hmem
      have := mem_dispatched he hmem
      rw [hhd] at this
      cases this
    have hnot_body : e ∉ body := by
      intro hmem
      have := hbody e hmem
      rw [dispatches_of_loop he] at this
      cases this
    have here : pre = hd → e = d → registered pre =
        (dispatched pre ++ [j]).filter (serializable X) := by
      intro hp hed
      subst hp
      subst hed
      rw [hhd, hreg, dispatches_inj he hd_job]
      rfl
    rcases List.append_eq_append_iff.mp htr with ⟨a, hpre, hmid⟩ | ⟨c, hhd', hmid⟩
    · -- `pre = hd ++ a`
      cases a with
      | nil =>
        simp only [List.nil_append, List.cons.injEq] at hmid
        exact here (by simpa using hpre) hmid.1.symm
      | cons x a =>
        simp only [List.cons_append, List.cons.injEq] at hmid
        obtain ⟨hx, hmid⟩ := hmid
        subst hx
        rcases List.append_eq_append_iff.mp hmid with ⟨b, ha, hrest⟩ | ⟨c, hbody', hmid'⟩
        · subst ha
          have ih' := ih b post e j hrest he
          rw [hpre, registered_append, dispatched_append,
            (dispatched_cons_of_dispatches hd_job _).1,
            (dispatched_cons_of_dispatches hd_job _).2, registered_append, dispatched_append,
            registered_of_not_loop body hbody, dispatched_of_not_loop body hbody, hhd, hreg,
            ih']
          simp only [List.nil_append, List.append_nil, ← List.filter_append, List.singleton_append,
      List.cons_append]
        · cases c with
          | nil =>
            simp only [List.nil_append] at hmid'
            simp only [List.append_nil] at hbody'
            subst hbody'
            have ih' := ih [] post e j hmid'.symm he
            rw [hpre, registered_append, dispatched_append,
              (dispatched_cons_of_dispatches hd_job _).1,
              (dispatched_cons_of_dispatches hd_job _).2,
              registered_of_not_loop body hbody, dispatched_of_not_loop body hbody, hhd,
              hreg]
            simp only [registered, dispatched, List.nil_append] at ih'
            simp [List.filter_cons, ← ih']
          | cons y c =>
            simp only [List.cons_append, List.cons.injEq] at hmid'
            exfalso
            apply hnot_body
            rw [hbody', hmid'.1]
            simp
    · -- `hd = pre ++ c`
      cases c with
      | nil =>
        simp only [List.nil_append, List.cons.injEq] at hmid
        exact here (by simpa using hhd'.symm) hmid.1
      | cons y c =>
        simp only [List.cons_append, List.cons.injEq] at hmid
        exfalso
        apply hnot_hd
        rw [hhd', hmid.1]
        simp

theorem loop_head (X : Env) (job : sftpjob) (len : Nat) (data : List Nat)
    (extra : List Event) (hextra : ∀ e ∈ extra, e.of_loop = false) :
    dispatched ([Event.xmalloc_job, Event.xmalloc_data len] ++
        (if X.debugging then [Event.hexdump data] else []) ++
        (if serializable X job then [Event.queue_serializable_job job] else []) ++
        extra) = [] ∧
    registered ([Event.xmalloc_job, Event.xmalloc_data len] ++
        (if X.debugging then [Event.hexdump data] else []) ++
        (if serializable X job then [Event.queue_serializable_job job] else []) ++
        extra) = [job].filter (serializable X) := by
  rw [dispatched_append, registered_append, dispatched_of_not_loop extra hextra,
    registered_of_not_loop extra hextra]
  cases X.debugging <;> cases h : serializable X job <;>
    simp [dispatched, registered, List.filter_cons, h]

theorem main_loop_trace (X : Env) :
    ∀ (fuel : Nat) (input : List Nat) (g : Globals),
      (g.workqueue = none → g.protocol = Protocol.sftppreinit) →
      LoopTrace X (main_loop X fuel input g).trace := by
  intro fuel
  induction fuel with
  | zero =>
    intro input g _
    exact LoopTrace.last _ (by simp [main_loop])
  | succ fuel ih =>
    intro input g hinv
    unfold main_loop
    split
    · exact LoopTrace.last _ (by simp [Event.of_loop])
    · rename_i hdr rest _
      simp only
      split
      · exact LoopTrace.last _ (by simp [Event.of_loop])
      · rename_i data rest' _
        split
        · -- the worker pool exists: the job is submitted
          have hh := loop_head X ⟨ntohl X.host (X.host.load32 hdr), data, 0, 0, 0⟩
            (X.host.load32 hdr) data [] (by simp)
          have e : ∀ (hd : List Event) (d : Event) (r : Run),
              (Run.after (hd ++ [d]) r).trace = (hd ++ []) ++ d :: ([] ++ r.trace) := by
            intro hd d r; simp [Run.after]
          rw [e]
          exact LoopTrace.block _ _ _ _ _ hh.1 hh.2 (Or.inl rfl) (by simp) (ih _ _ hinv)
        · -- no worker pool: the job is executed inline
          rename_i hq
          have hpre := hinv hq
          have hquiet := process_sftpjob_preinit_quiet X g
            ⟨ntohl X.host (X.host.load32 hdr), data, 0, 0, 0⟩ hpre
          obtain ⟨hstop, hev, hglob⟩ := hquiet
          have hh := loop_head X ⟨ntohl X.host (X.host.load32 hdr), data, 0, 0, 0⟩
            (X.host.load32 hdr) data [Event.alloc_init] (by simp [Event.of_loop])
          split
          · rename_i s hs
            rw [hstop] at hs
            cases hs
          · have e : ∀ (hd : List Event) (d : Event) (b : List Event) (r : Run),
                (Run.after (hd ++ [Event.alloc_init, d] ++ b ++ [Event.alloc_destroy]) r).trace
                  = (hd ++ [Event.alloc_init]) ++ d ::
                      ((b ++ [Event.alloc_destroy]) ++ r.trace) := by
              intro hd d b r; simp [Run.after]
            rw [e]
            refine LoopTrace.block _ _ _ _ _ hh.1 hh.2 (Or.inr rfl) ?_ (ih _ _ ?_)
            · intro ev hmem
              rcases List.mem_append.mp hmem with h | h
              · exact hev ev h
              · simp only [List.mem_singleton] at h
                subst h
                rfl
            · intro hnone
              rcases hglob with h | ⟨_, h⟩
              · rw [h]; exact hpre
              · rw [h] at hnone
                cases hnone

theorem main_trace (X : Env) (input : List Nat) : LoopTrace X (main X input).trace :=
  main_loop_trace X _ input Globals.initial (fun _ => rfl)

theorem ntohl_load32 (host : Endian) (b0 b1 b2 b3 : Nat) (h0 : b0 < 256) (h1 : b1 < 256)
    (h2 : b2 < 256) (h3 : b3 < 256) :
    ntohl host (host.load32 [b0, b1, b2, b3]) = be32 b0 b1 b2 b3 := by
  cases host
  · simp only [ntohl, Endian.load32, le32, be32]
    have e0 : (b0 + b1 * 256 + b2 * 65536 + b3 * 16777216) % 256 = b0 := by omega
    have e1 : (b0 + b1 * 256 + b2 * 65536 + b3 * 16777216) / 256 % 256 = b1 := by omega
    have e2 : (b0 + b1 * 256 + b2 * 65536 + b3 * 16777216) / 65536 % 256 = b2 := by omega
    have e3 : (b0 + b1 * 256 + b2 * 65536 + b3 * 16777216) / 16777216 % 256 = b3 := by omega
    rw [e0, e1, e2, e3]
  · rfl

theorem do_read_four {input hdr rest : List Nat} (h : do_read input 4 = some (hdr, rest)) :
    ∃ b0 b1 b2 b3, input = b0 :: b1 :: b2 :: b3 :: rest ∧ hdr = [b0, b1, b2, b3] := by
  rcases input with _ | ⟨b0, _ | ⟨b1, _ | ⟨b2, _ | ⟨b3, tl⟩⟩⟩⟩ <;>
    simp [do_read] at h
  exact ⟨b0, b1, b2, b3, by rw [h.2], h.1.symm⟩

theorem do_read_none_four {input : List Nat} (h : do_read input 4 = none) (fuel : Nat) :
    frames_upto fuel input = [] := by
  cases fuel with
  | zero => rfl
  | succ fuel =>
    rcases input with _ | ⟨b0, _ | ⟨b1, _ | ⟨b2, _ | ⟨b3, tl⟩⟩⟩⟩ <;>
      simp [do_read] at h <;> rfl

theorem main_loop_frames (X : Env) :
    ∀ (fuel : Nat) (input : List Nat) (g : Globals),
      (g.workqueue = none → g.protocol = Protocol.sftppreinit) →
      (∀ b ∈ input, b < 256) →
      frames_upto fuel input =
          (dispatched (main_loop X fuel input g).trace).map (fun job => job.data) ∧
        ∀ job ∈ dispatched (main_loop X fuel input g).trace,
          job.len = job.data.length := by
  intro fuel
  induction fuel with
  | zero =>
    intro input g _ _
    exact ⟨by simp [main_loop, frames_upto, dispatched], by simp [main_loop, dispatched]⟩
  | succ fuel ih =>
    intro input g hinv hbytes
    unfold main_loop
    split
    · rename_i hnone
      exact ⟨by simp [do_read_none_four hnone, dispatched], by simp [dispatched]⟩
    · rename_i hdr rest hsome
      obtain ⟨b0, b1, b2, b3, hin, hhdr⟩ := do_read_four hsome
      subst hin
      subst hhdr
      have hlen : ntohl X.host (X.host.load32 [b0, b1, b2, b3]) = be32 b0 b1 b2 b3 :=
        ntohl_load32 X.host b0 b1 b2 b3 (hbytes b0 (by simp)) (hbytes b1 (by simp))
          (hbytes b2 (by simp)) (hbytes b3 (by simp))
      simp only [hlen]
      split
      · rename_i hnone
        have hshort : rest.length < be32 b0 b1 b2 b3 := by
          unfold do_read at hnone
          split at hnone
          · assumption
          · cases hnone
        exact ⟨by simp [frames_upto, hshort, dispatched], by simp [dispatched]⟩
      · rename_i data rest' hsome'
        have hfull : ¬ rest.length < be32 b0 b1 b2 b3 ∧
            data = rest.take (be32 b0 b1 b2 b3) ∧ rest' = rest.drop (be32 b0 b1 b2 b3) := by
          unfold do_read at hsome'
          split at hsome'
          · cases hsome'
          · simp only [Option.some.injEq, Prod.mk.injEq] at hsome'
            exact ⟨by assumption, hsome'.1.symm, hsome'.2.symm⟩
        obtain ⟨hnot, hdata, hrest'⟩ := hfull
        have hbytes' : ∀ b ∈ rest', b < 256 := by
          intro b hb
          rw [hrest'] at hb
          exact hbytes b (by
            simp only [List.mem_cons]
            right; right; right; right
            exact List.mem_of_mem_drop hb)
        have hdlen : be32 b0 b1 b2 b3 = data.length := by
          rw [hdata, List.length_take]
          omega
        have hh := loop_head X ⟨be32 b0 b1 b2 b3, data, 0, 0, 0⟩
            (X.host.load32 [b0, b1, b2, b3]) data
        have hA := (hh [] (by simp)).1
        simp only [List.append_nil] at hA
        have hframes : frames_upto (fuel + 1) (b0 :: b1 :: b2 :: b3 :: rest) =
            data :: frames_upto fuel rest' := by
          simp [frames_upto, hnot, hdata, hrest']
        rw [hframes]
        split
        · obtain ⟨h1, h3⟩ := ih rest' g hinv hbytes'
          refine ⟨?_, ?_⟩
          · simp only [Run.after]
            rw [dispatched_append, dispatched_append, hA]
            simp [dispatched, h1]
          · simp only [Run.after]
            rw [dispatched_append, dispatched_append, hA]
            intro job hjob
            simp only [dispatched, List.nil_append, List.append_nil, List.cons_append,
              List.mem_cons] at hjob
            rcases hjob with hj | hj
            · subst hj; exact hdlen
            · exact h3 job hj
        · rename_i hq
          have hpre := hinv hq
          obtain ⟨hstop, hev, hglob⟩ := process_sftpjob_preinit_quiet X g
            ⟨be32 b0 b1 b2 b3, data, 0, 0, 0⟩ hpre
          split
          · rename_i s hs
            rw [hstop] at hs
            cases hs
          · have hinv' : (process_sftpjob X g ⟨be32 b0 b1 b2 b3, data, 0, 0, 0⟩).globals.workqueue
                = none →
                (process_sftpjob X g ⟨be32 b0 b1 b2 b3, data, 0, 0, 0⟩).globals.protocol
                = Protocol.sftppreinit := by
              intro hnone
              rcases hglob with h | ⟨_, h⟩
              · rw [h]; exact hpre
              · rw [h] at hnone
                cases hnone
            obtain ⟨h1, h3⟩ := ih rest' _ hinv' hbytes'
            have hd : dispatched (([Event.xmalloc_job,
                  Event.xmalloc_data (X.host.load32 [b0, b1, b2, b3])] ++
                (if X.debugging then [Event.hexdump data] else []) ++
                (if serializable X ⟨be32 b0 b1 b2 b3, data, 0, 0, 0⟩ then
                  [Event.queue_serializable_job ⟨be32 b0 b1 b2 b3, data, 0, 0, 0⟩]
                 else []) ++
                [Event.alloc_init, Event.process_sftpjob ⟨be32 b0 b1 b2 b3, data, 0, 0, 0⟩] ++
                (process_sftpjob X g ⟨be32 b0 b1 b2 b3, data, 0, 0, 0⟩).trace ++
                [Event.alloc_destroy])) = [⟨be32 b0 b1 b2 b3, data, 0, 0, 0⟩] := by
              rw [dispatched_append, dispatched_append, dispatched_append,
                hA, dispatched_of_not_loop _ hev]
              simp [dispatched]
            refine ⟨?_, ?_⟩
            · simp only [Run.after]
              rw [dispatched_append, hd]
              simp [h1]
            · simp only [Run.after]
              rw [dispatched_append, hd]
              intro job hjob
              simp only [List.cons_append, List.nil_append, List.mem_cons] at hjob
              rcases hjob with hj | hj
              · subst hj; exact hdlen
              · exact h3 job hj

theorem main_loop_fuel (X : Env) :
    ∀ (fuel : Nat) (input : List Nat) (g : Globals),
      (g.workqueue = none → g.protocol = Protocol.sftppreinit) →
      input.length < 4 * fuel →
      (main_loop X fuel input g).stop ≠ some Stop.out_of_fuel := by
  intro fuel
  induction fuel with
  | zero => intro input g _ h; omega
  | succ fuel ih =>
    intro input g hinv hlen
    unfold main_loop
    split
    · simp
    · rename_i hdr rest hsome
      obtain ⟨b0, b1, b2, b3, hin, _⟩ := do_read_four hsome
      subst hin
      simp only
      split
      · simp
      · rename_i data rest' hsome'
        have hrest' : rest'.length ≤ rest.length := by
          unfold do_read at hsome'
          split at hsome'
          · cases hsome'
          · simp only [Option.some.injEq, Prod.mk.injEq] at hsome'
            rw [← hsome'.2, List.length_drop]
            omega
        have hlen' : rest'.length < 4 * fuel := by
          simp only [List.length_cons] at hlen
          omega
        split
        · simpa [Run.after] using ih rest' g hinv hlen'
        · rename_i hq
          have hpre := hinv hq
          obtain ⟨hstop, _, hglob⟩ := process_sftpjob_preinit_quiet X g
            ⟨ntohl X.host (X.host.load32 hdr), data, 0, 0, 0⟩ hpre
          split
          · rename_i s hs
            rw [hstop] at hs
            cases hs
          · have hinv' : (process_sftpjob X g
                ⟨ntohl X.host (X.host.load32 hdr), data, 0, 0, 0⟩).globals.workqueue
                = none →
                (process_sftpjob X g
                ⟨ntohl X.host (X.host.load32 hdr), data, 0, 0, 0⟩).globals.protocol
                = Protocol.sftppreinit := by
              intro hnone
              rcases hglob with h | ⟨_, h⟩
              · rw [h]; exact hpre
              · rw [h] at hnone
                cases hnone
            simpa [Run.after] using ih rest' _ hinv' hlen'

theorem frames_upto_enough :
    ∀ (fuel : Nat) (input : List Nat), input.length < 4 * fuel →
      ∀ k, frames_upto (fuel + k) input = frames_upto fuel input := by
  intro fuel
  induction fuel with
  | zero => intro input h; omega
  | succ fuel ih =>
    intro input hlen k
    have e : fuel + 1 + k = (fuel + k) + 1 := by omega
    rw [e]
    rcases input with _ | ⟨b0, _ | ⟨b1, _ | ⟨b2, _ | ⟨b3, rest⟩⟩⟩⟩ <;>
      simp only [frames_upto]
    split
    · rfl
    · rw [ih _ (by simp only [List.length_cons, List.length_drop] at hlen ⊢; omega) k]

/-- C9: on a little-endian host the payload buffer does not have the size of
the declared frame length. For the length prefix `00 00 00 05` the job gets
`job->len = 5`, but `xmalloc(len)` is called with the prefix as the host reads
it, 83886080. For the prefix `01 00 00 00` the declared length `ntohl(len)` is
16777216 and the buffer is allocated with 1 byte. -/
theorem main_payload_buffer_size :
    (main (sampleEnv Endian.little) [0, 0, 0, 5, 1, 0, 0, 0, 3]).trace.take 4 =
      [Event.xmalloc_job, Event.xmalloc_data 83886080, Event.alloc_init,
       Event.process_sftpjob ⟨5, [1, 0, 0, 0, 3], 0, 0, 0⟩] ∧
    ntohl Endian.little (Endian.little.load32 [1, 0, 0, 0]) = 16777216 ∧
    (main (sampleEnv Endian.little) [1, 0, 0, 0, 1, 0]).trace =
      [Event.xmalloc_job, Event.xmalloc_data 1] := by
  decide

/-- C10: along every run of `main`, the jobs registered with the ordering
tracker are, in order, the framed jobs that pass the test "payload non-empty
and first byte one of `SSH_FXP_READ`, `SSH_FXP_WRITE`, `SSH_FXP_FSETSTAT`,
`SSH_FXP_FSTAT`"; at the moment a job is submitted or executed, the jobs
registered so far are exactly the jobs passing the test among those submitted
or executed before together with the job itself; and the framed jobs are, in
order of arrival, the frames of the input stream: one job for each complete
frame, with its payload and its declared length. The bound on the iterations
of the loop is never reached, and a larger bound yields the same frames. -/
theorem main_registers_serializable (X : Env) (input : List Nat)
    (hbytes : ∀ b ∈ input, b < 256) :
    (∀ job : sftpjob, serializable X job = true ↔
        job.len ≠ 0 ∧ (job.byte 0 = X.SSH_FXP_READ ∨ job.byte 0 = X.SSH_FXP_WRITE ∨
          job.byte 0 = X.SSH_FXP_FSETSTAT ∨ job.byte 0 = X.SSH_FXP_FSTAT)) ∧
    registered (main X input).trace =
        (dispatched (main X input).trace).filter (serializable X) ∧
    (∀ (pre post : List Event) (e : Event) (job : sftpjob),
        (main X input).trace = pre ++ e :: post → e.dispatches job →
        registered pre = (dispatched pre ++ [job]).filter (serializable X)) ∧
    frames input = (dispatched (main X input).trace).map (fun job => job.data) ∧
    (∀ job ∈ dispatched (main X input).trace, job.len = job.data.length) ∧
    (main X input).stop ≠ some Stop.out_of_fuel ∧
    ∀ k, frames_upto (input.length / 4 + 1 + k) input = frames input := by
  refine ⟨?_, loopTrace_registered X (main_trace X input),
    loopTrace_before X (main_trace X input),
    (main_loop_frames X _ input Globals.initial (fun _ => rfl) hbytes).1,
    (main_loop_frames X _ input Globals.initial (fun _ => rfl) hbytes).2,
    main_loop_fuel X _ input Globals.initial (fun _ => rfl) (by omega),
    frames_upto_enough _ input (by omega)⟩
  intro job
  simp only [serializable, Bool.and_eq_true, Bool.or_eq_true, decide_eq_true_eq, or_assoc]

theorem main_registers_serializable_witness :
    (∀ b ∈ [0, 0, 0, 5, 1, 0, 0, 0, 3, 0, 0, 0, 1, 5, 0, 0, 0, 0, 0, 0, 0, 2, 7, 7], b < 256) ∧
    registered (main (sampleEnv Endian.little)
        [0, 0, 0, 5, 1, 0, 0, 0, 3, 0, 0, 0, 1, 5, 0, 0, 0, 0, 0, 0, 0, 2, 7, 7]).trace =
      (dispatched (main (sampleEnv Endian.little)
        [0, 0, 0, 5, 1, 0, 0, 0, 3, 0, 0, 0, 1, 5, 0, 0, 0, 0, 0, 0, 0, 2, 7, 7]).trace).filter
          (serializable (sampleEnv Endian.little)) ∧
    registered (main (sampleEnv Endian.little)
        [0, 0, 0, 5, 1, 0, 0, 0, 3, 0, 0, 0, 1, 5, 0, 0, 0, 0, 0, 0, 0, 2, 7, 7]).trace =
      [⟨1, [5], 0, 0, 0⟩] :=
  ⟨by decide,
   (main_registers_serializable (sampleEnv Endian.little)
      [0, 0, 0, 5, 1, 0, 0, 0, 3, 0, 0, 0, 1, 5, 0, 0, 0, 0, 0, 0, 0, 2, 7, 7]
      (by decide)).2.1,
   by decide⟩

/-! ## Theorems: exits of the dispatcher -/

theorem lookup_found_get (cs : List sftpcmd) (t : Int) :
    ∀ (fuel : Nat) (l r : Int) (m : Nat) (c : sftpcmd),
      lookup cs t fuel l r = Lookup.found m c → cs[m]? = some c := by
  intro fuel
  induction fuel with
  | zero => intro l r m c h; simp [lookup] at h
  | succ fuel ih =>
    intro l r m c h
    unfold lookup at h
    split at h
    · split at h
      · cases h
      · simp only at h
        split at h
        · cases h
        · split at h
          · cases h
          · rename_i c' hc'
            split at h
            · exact ih _ _ m c h
            · split at h
              · exact ih _ _ m c h
              · simp only [Lookup.found.injEq] at h
                rw [← h.1, ← h.2]
                exact hc'
    · cases h

theorem locate_handler_cases (X : Env) (g : Globals) (job : sftpjob) (t : Nat) :
    (∃ m c, (protocolTable X g.protocol).commands[m]? = some c ∧
        locate_handler X g job t =
          ⟨(c.handler g job).globals, Event.handler m job :: (c.handler g job).trace,
           (c.handler g job).stop⟩) ∨
      locate_handler X g job t =
        ⟨g, [Event.send_status job.id X.SSH_FX_OP_UNSUPPORTED "operation not supported"],
         none⟩ ∨
      ∃ s, locate_handler X g job t = ⟨g, [], some s⟩ := by
  unfold locate_handler
  simp only
  cases h : lookup (protocolTable X g.protocol).commands t
      ((protocolTable X g.protocol).commands.length + 1) 0
      ((protocolTable X g.protocol).ncommands - 1) with
  | found m c => exact Or.inl ⟨m, c, lookup_found_get _ _ _ _ _ m c h, rfl⟩
  | not_found => exact Or.inr (Or.inl rfl)
  | stopped s => exact Or.inr (Or.inr ⟨s, rfl⟩)

theorem done_of_returned (r : Run) (h : r.stop = none) :
    done r = ⟨r.globals,
      r.trace ++ [Event.serialize_remove_job, Event.free_data, Event.free_job], none⟩ := by
  unfold done
  rw [h]

theorem done_stop (r : Run) : (done r).stop = r.stop := by
  unfold done
  split
  · rfl
  · rename_i h; simp [h]

/-- C13: while the protocol state is the pre-init table, a job whose type byte
is not the handshake operation and that carries a 4-byte request identifier is
answered by the one status reply "operation unsupported" carrying that
identifier; no handler runs, the protocol state stays the pre-init table, the
work queue is untouched and no worker pool is created. -/
theorem process_sftpjob_preinit_unsupported (X : Env) (g : Globals) (jv : sftpjob)
    (hpre : g.protocol = Protocol.sftppreinit)
    (ht : jv.byte 0 ≠ X.SSH_FXP_INIT) (hid : 4 ≤ jv.len - 1) :
    process_sftpjob X g jv =
        ⟨g, [Event.send_status (be32 (jv.byte 1) (jv.byte 2) (jv.byte 3) (jv.byte 4))
               X.SSH_FX_OP_UNSUPPORTED "operation not supported",
             Event.serialize_remove_job, Event.free_data, Event.free_job], none⟩ ∧
      ¬ invokes_handler (process_sftpjob X g jv).trace ∧
      (process_sftpjob X g jv).globals.protocol = Protocol.sftppreinit ∧
      (process_sftpjob X g jv).globals.workqueue = g.workqueue ∧
      ∀ n, Event.queue_init n ∉ (process_sftpjob X g jv).trace := by
  have e : process_sftpjob X g jv =
      ⟨g, [Event.send_status (be32 (jv.byte 1) (jv.byte 2) (jv.byte 3) (jv.byte 4))
             X.SSH_FX_OP_UNSUPPORTED "operation not supported",
           Event.serialize_remove_job, Event.free_data, Event.free_job], none⟩ := by
    rw [process_sftpjob_with_id X g jv ht (by omega), locate_handler_preinit X g _ _ hpre,
      if_neg ht]
    rfl
  rw [e]
  refine ⟨rfl, ?_, hpre, rfl, ?_⟩
  · simp [invokes_handler]
  · simp

theorem process_sftpjob_preinit_unsupported_witness :
    (Globals.initial).protocol = Protocol.sftppreinit ∧
    (⟨6, [5, 0, 0, 0, 9, 7], 0, 0, 0⟩ : sftpjob).byte 0 ≠ (sampleEnv Endian.big).SSH_FXP_INIT ∧
    4 ≤ (⟨6, [5, 0, 0, 0, 9, 7], 0, 0, 0⟩ : sftpjob).len - 1 ∧
    process_sftpjob (sampleEnv Endian.big) Globals.initial ⟨6, [5, 0, 0, 0, 9, 7], 0, 0, 0⟩ =
      ⟨Globals.initial,
       [Event.send_status 9 (sampleEnv Endian.big).SSH_FX_OP_UNSUPPORTED
          "operation not supported",
        Event.serialize_remove_job, Event.free_data, Event.free_job], none⟩ :=
  ⟨rfl, by decide, by decide,
   (process_sftpjob_preinit_unsupported (sampleEnv Endian.big) Globals.initial
      ⟨6, [5, 0, 0, 0, 9, 7], 0, 0, 0⟩ rfl (by decide) (by decide)).1⟩

/-- C14: whenever `process_sftpjob` comes back, on each of its four exits
(empty request, missing identifier, no handler found, handler returned), its
trace is the reply or the handler call followed by `serialize_remove_job`,
`free(job->data)`, `free(job)`, in this order: the job is deregistered after
the reply or handler call and before its payload and record are freed, and
exactly once, given that no handler of the active table calls
`serialize_remove_job` itself. -/
theorem process_sftpjob_deregisters (X : Env) (g : Globals) (jv : sftpjob)
    (hret : (process_sftpjob X g jv).stop = none) :
    ∃ body, (process_sftpjob X g jv).trace =
        body ++ [Event.serialize_remove_job, Event.free_data, Event.free_job] ∧
      (body = [Event.send_status 0 X.SSH_FX_BAD_MESSAGE "empty request"] ∨
       body = [Event.send_status 0 X.SSH_FX_BAD_MESSAGE "missing ID field"] ∨
       (∃ id, body =
          [Event.send_status id X.SSH_FX_OP_UNSUPPORTED "operation not supported"]) ∨
       (∃ m job c, (protocolTable X g.protocol).commands[m]? = some c ∧
          (c.handler g job).stop = none ∧
          body = Event.handler m job :: (c.handler g job).trace)) ∧
      ((∀ c ∈ (protocolTable X g.protocol).commands, ∀ (g' : Globals) (j : sftpjob),
          Event.serialize_remove_job ∉ (c.handler g' j).trace) →
        List.count Event.serialize_remove_job (process_sftpjob X g jv).trace = 1) := by
  have key : ∀ (job : sftpjob) (t : Nat),
      process_sftpjob X g jv = done (locate_handler X g job t) →
      ∃ body, (process_sftpjob X g jv).trace =
        body ++ [Event.serialize_remove_job, Event.free_data, Event.free_job] ∧
      (body = [Event.send_status 0 X.SSH_FX_BAD_MESSAGE "empty request"] ∨
       body = [Event.send_status 0 X.SSH_FX_BAD_MESSAGE "missing ID field"] ∨
       (∃ id, body =
          [Event.send_status id X.SSH_FX_OP_UNSUPPORTED "operation not supported"]) ∨
       (∃ m job c, (protocolTable X g.protocol).commands[m]? = some c ∧
          (c.handler g job).stop = none ∧
          body = Event.handler m job :: (c.handler g job).trace)) ∧
      ((∀ c ∈ (protocolTable X g.protocol).commands, ∀ (g' : Globals) (j : sftpjob),
          Event.serialize_remove_job ∉ (c.handler g' j).trace) →
        List.count Event.serialize_remove_job (process_sftpjob X g jv).trace = 1) := by
    intro job t e
    have hstop : (locate_handler X g job t).stop = none := by
      rw [e, done_stop] at hret
      exact hret
    rw [e, done_of_returned _ hstop]
    rcases locate_handler_cases X g job t with ⟨m, c, hm, h⟩ | h | ⟨s, h⟩
    · rw [h] at hstop ⊢
      refine ⟨_, rfl, Or.inr (Or.inr (Or.inr ⟨m, job, c, hm, hstop, rfl⟩)), ?_⟩
      intro hno
      have := hno c (List.getElem?_mem hm) g job
      simp [List.count_cons, List.count_append, List.count_eq_zero_of_not_mem this]
    · rw [h]
      exact ⟨_, rfl, Or.inr (Or.inr (Or.inl ⟨_, rfl⟩)), fun _ => by simp [List.count_cons]⟩
    · rw [h] at hstop
      cases hstop
  by_cases h0 : jv.len = 0
  · rw [process_sftpjob_empty X g jv h0]
    exact ⟨_, rfl, Or.inl rfl, fun _ => by simp [List.count_cons]⟩
  · by_cases ht : jv.byte 0 = X.SSH_FXP_INIT
    · exact key _ _ (process_sftpjob_init X g jv h0 ht)
    · by_cases hs : jv.len < 5
      · rw [process_sftpjob_missing_id X g jv h0 ht hs]
        exact ⟨_, rfl, Or.inr (Or.inl rfl), fun _ => by simp [List.count_cons]⟩
      · exact key _ _ (process_sftpjob_with_id X g jv ht (by omega))

theorem process_sftpjob_deregisters_witness :
    (process_sftpjob (sampleEnv Endian.big) ⟨Protocol.sftpv3, some ⟨4⟩⟩
        ⟨6, [5, 0, 0, 0, 9, 7], 0, 0, 0⟩).stop = none ∧
    ∃ body, (process_sftpjob (sampleEnv Endian.big) ⟨Protocol.sftpv3, some ⟨4⟩⟩
        ⟨6, [5, 0, 0, 0, 9, 7], 0, 0, 0⟩).trace =
        body ++ [Event.serialize_remove_job, Event.free_data, Event.free_job] :=
  ⟨by decide,
   (process_sftpjob_deregisters (sampleEnv Endian.big) ⟨Protocol.sftpv3, some ⟨4⟩⟩
      ⟨6, [5, 0, 0, 0, 9, 7], 0, 0, 0⟩ (by decide)).imp (fun _ h => h.1)⟩

/-- C17: `process_sftpjob` either invokes no handler (it answers with one
status reply, or the lookup does not end), or it invokes the handler of one
table entry on the job in a state where the bytes consumed and the bytes left
add up to the declared length, where exactly 1 byte is consumed and `job->id`
is 0 when the type is the handshake operation, and where exactly 5 bytes are
consumed and `job->id` is the parsed identifier otherwise. -/
theorem process_sftpjob_handler_job (X : Env) (g : Globals) (jv : sftpjob) :
    ((∃ id status msg, process_sftpjob X g jv =
          ⟨g, [Event.send_status id status msg,
               Event.serialize_remove_job, Event.free_data, Event.free_job], none⟩) ∨
      (∃ s, process_sftpjob X g jv = ⟨g, [], some s⟩)) ∨
    ∃ m c job, (protocolTable X g.protocol).commands[m]? = some c ∧
      process_sftpjob X g jv =
        done ⟨(c.handler g job).globals, Event.handler m job :: (c.handler g job).trace,
              (c.handler g job).stop⟩ ∧
      job.len = jv.len ∧ job.data = jv.data ∧
      job.ptr + job.left = jv.len ∧
      (jv.byte 0 = X.SSH_FXP_INIT → job.ptr = 1 ∧ job.id = 0) ∧
      (jv.byte 0 ≠ X.SSH_FXP_INIT →
        job.ptr = 5 ∧ job.id = be32 (jv.byte 1) (jv.byte 2) (jv.byte 3) (jv.byte 4)) := by
  have key : ∀ (job : sftpjob) (t : Nat),
      process_sftpjob X g jv = done (locate_handler X g job t) →
      ((∃ id status msg, process_sftpjob X g jv =
          ⟨g, [Event.send_status id status msg,
               Event.serialize_remove_job, Event.free_data, Event.free_job], none⟩) ∨
        (∃ s, process_sftpjob X g jv = ⟨g, [], some s⟩)) ∨
      ∃ m c, (protocolTable X g.protocol).commands[m]? = some c ∧
        process_sftpjob X g jv =
          done ⟨(c.handler g job).globals, Event.handler m job :: (c.handler g job).trace,
                (c.handler g job).stop⟩ := by
    intro job t e
    rcases locate_handler_cases X g job t with ⟨m, c, hm, h⟩ | h | ⟨s, h⟩
    · exact Or.inr ⟨m, c, hm, by rw [e, h]⟩
    · exact Or.inl (Or.inl ⟨_, _, _, by rw [e, h]; rfl⟩)
    · exact Or.inl (Or.inr ⟨s, by rw [e, h]; rfl⟩)
  by_cases h0 : jv.len = 0
  · exact Or.inl (Or.inl ⟨_, _, _, process_sftpjob_empty X g jv h0⟩)
  · by_cases ht : jv.byte 0 = X.SSH_FXP_INIT
    · rcases key _ _ (process_sftpjob_init X g jv h0 ht) with h | ⟨m, c, hm, h⟩
      · exact Or.inl h
      · refine Or.inr ⟨m, c, _, hm, h, rfl, rfl, ?_, fun _ => ⟨rfl, rfl⟩,
          fun hne => absurd ht hne⟩
        show 1 + (jv.len - 1) = jv.len
        omega
    · by_cases hs : jv.len < 5
      · exact Or.inl (Or.inl ⟨_, _, _, process_sftpjob_missing_id X g jv h0 ht hs⟩)
      · rcases key _ _ (process_sftpjob_with_id X g jv ht (by omega)) with h | ⟨m, c, hm, h⟩
        · exact Or.inl h
        · refine Or.inr ⟨m, c, _, hm, h, rfl, rfl, ?_, fun he => absurd he ht,
            fun _ => ⟨rfl, rfl⟩⟩
          show 5 + (jv.len - 5) = jv.len
          omega

/-- C18: the `default` branch of the second `switch` of `sftp_init` is never
taken: `sftp_init` always comes back, no assertion fails, and whenever it goes
on after the first `switch` the version it announces is 3 or 4. -/
theorem sftp_init_assert_unreachable (X : Env) (g : Globals) (job : sftpjob) :
    (sftp_init X g job).stop = none ∧
    (∀ msg, (sftp_init X g job).stop ≠ some (Stop.assert_failed msg)) ∧
    (∀ n, Event.send_uint32 n ∈ (sftp_init X g job).trace → n = 3 ∨ n = 4) ∧
    (Event.send_begin ∈ (sftp_init X g job).trace →
      (sftp_init X g job).globals.protocol = Protocol.sftpv3 ∨
      (sftp_init X g job).globals.protocol = Protocol.sftpv4) := by
  have hstop := (sftp_init_quiet X g job).1
  refine ⟨hstop, fun msg => by rw [hstop]; simp, ?_, ?_⟩
  · intro n hn
    by_cases h : g.protocol = Protocol.sftppreinit
    · cases hp : parse_uint32 job with
      | none => rw [sftp_init_no_version X g job h hp] at hn; simp at hn
      | some q =>
        obtain ⟨v, job'⟩ := q
        by_cases hv : v ≤ 2
        · rw [sftp_init_old X g job job' v h hp hv] at hn; simp at hn
        · rw [sftp_init_ok X g job job' v h hp (by omega)] at hn
          simp only [List.mem_cons, Event.send_uint32.injEq, List.mem_singleton,
            List.not_mem_nil, or_false, reduceCtorEq, false_or] at hn
          rw [hn]
          split <;> simp
    · rw [sftp_init_already X g job h] at hn; simp at hn
  · intro hn
    by_cases h : g.protocol = Protocol.sftppreinit
    · cases hp : parse_uint32 job with
      | none => rw [sftp_init_no_version X g job h hp] at hn; simp at hn
      | some q =>
        obtain ⟨v, job'⟩ := q
        by_cases hv : v ≤ 2
        · rw [sftp_init_old X g job job' v h hp hv] at hn; simp at hn
        · rw [sftp_init_ok X g job job' v h hp (by omega)]
          simp only
          split <;> simp
    · rw [sftp_init_already X g job h] at hn; simp at hn

/-! ## Theorems: termination and bounds of the lookup -/

theorem lookup_probes_spec (cs : List sftpcmd) (t : Int) (hlen : cs.length ≤ 1073741824) :
    ∀ (fuel : Nat) (l r : Int), 0 ≤ l → r < cs.length → 0 < fuel → r + 1 - l < fuel →
      (∀ m ∈ lookup_probes cs t fuel l r, l ≤ m ∧ m ≤ r) ∧
      ((lookup_probes cs t fuel l r).length : Int) ≤ max 0 (r + 1 - l) ∧
      ∀ k, lookup cs t (fuel + k) l r = lookup cs t fuel l r ∧
        lookup_probes cs t (fuel + k) l r = lookup_probes cs t fuel l r := by
  intro fuel
  induction fuel with
  | zero => intro l r _ _ hf0 _; omega
  | succ fuel ih =>
    intro l r hl hr _ hf
    have hk : ∀ k, fuel + 1 + k = (fuel + k) + 1 := by intro k; omega
    simp only [hk]
    unfold lookup lookup_probes
    by_cases hlr : l ≤ r
    · have hov : ¬ (l + r < INT_MIN ∨ INT_MAX < l + r) := by
        unfold INT_MIN INT_MAX
        omega
      have hm : Int.tdiv (l + r) 2 = (l + r) / 2 := Int.tdiv_eq_ediv (by omega) (by omega)
      simp only [hlr, if_true, hov, if_false, hm]
      have hm0 : ¬ ((l + r) / 2 < 0) := by omega
      simp only [hm0, if_false]
      have hmlt : ((l + r) / 2).toNat < cs.length := by omega
      rw [List.getElem?_eq_getElem hmlt]
      simp only
      by_cases h1 : t < (cs[((l + r) / 2).toNat].type : Int)
      · simp only [h1, if_true]
        obtain ⟨ha, hb, hc⟩ := ih l ((l + r) / 2 - 1) hl (by omega) (by omega) (by omega)
        refine ⟨?_, ?_, fun k => ⟨(hc k).1, by rw [(hc k).2]⟩⟩
        · intro m hmem
          rcases List.mem_cons.mp hmem with h | h
          · omega
          · have := ha m h
            omega
        · simp only [List.length_cons]
          push_cast
          omega
      · simp only [h1, if_false]
        by_cases h2 : t > (cs[((l + r) / 2).toNat].type : Int)
        · simp only [h2, if_true]
          obtain ⟨ha, hb, hc⟩ := ih ((l + r) / 2 + 1) r (by omega) hr (by omega) (by omega)
          refine ⟨?_, ?_, fun k => ⟨(hc k).1, by rw [(hc k).2]⟩⟩
          · intro m hmem
            rcases List.mem_cons.mp hmem with h | h
            · omega
            · have := ha m h
              omega
          · simp only [List.length_cons]
            push_cast
            omega
        · simp only [h2, if_false]
          refine ⟨?_, ?_, fun _ => ⟨trivial, trivial⟩⟩
          · intro m hmem
            simp only [List.mem_singleton] at hmem
            omega
          · simp only [List.length_singleton]
            omega
    · simp only [hlr, if_false]
      exact ⟨by simp, by simp, fun _ => ⟨trivial, trivial⟩⟩

theorem lookup_step_right (cs : List sftpcmd) (t : Int) (fuel : Nat) (l r : Int) (c : sftpcmd)
    (hlr : l ≤ r) (hov : ¬ (l + r < INT_MIN ∨ INT_MAX < l + r))
    (hm : ¬ Int.tdiv (l + r) 2 < 0) (hc : cs[(Int.tdiv (l + r) 2).toNat]? = some c)
    (h1 : ¬ t < (c.type : Int)) (h2 : t > (c.type : Int)) :
    lookup cs t (fuel + 1) l r = lookup cs t fuel (Int.tdiv (l + r) 2 + 1) r := by
  rw [lookup]
  simp only [hlr, if_true, hov, if_false, hm, hc, h1, h2]

theorem lookup_step_overflow (cs : List sftpcmd) (t : Int) (fuel : Nat) (l r : Int)
    (hlr : l ≤ r) (hov : l + r < INT_MIN ∨ INT_MAX < l + r) :
    lookup cs t (fuel + 1) l r = Lookup.stopped Stop.int_overflow := by
  rw [lookup]
  simp only [hlr, if_true, hov]

theorem hugeTable_length : hugeTable.length = 2147483647 := List.length_replicate _ _

theorem hugeTable_mid : hugeTable[(Int.tdiv (0 + 2147483646) 2).toNat]? =
    some ⟨0, sample_handler 0⟩ := by
  have e : (Int.tdiv (0 + 2147483646) 2).toNat = 1073741823 := by decide
  rw [e]
  unfold hugeTable
  rw [List.getElem?_replicate]
  simp

/-- On a table with `INT_MAX` entries the lookup loop does not end normally:
in its second iteration `l + r` is 1073741824 + 2147483646, more than an `int`
holds, so that no index within the table is computed. -/
theorem lookup_overflow_hugeTable :
    lookup hugeTable 1 (hugeTable.length + 1) 0 ((hugeTable.length : Int) - 1) =
      Lookup.stopped Stop.int_overflow := by
  rw [hugeTable_length]
  have e2 : ((2147483647 : Nat) : Int) - 1 = 2147483646 := by norm_num
  rw [e2]
  have s1 := lookup_step_right hugeTable 1 2147483647 0 2147483646 ⟨0, sample_handler 0⟩
    (by decide) (by decide) (by decide) hugeTable_mid (by decide) (by decide)
  have s2 := lookup_step_overflow hugeTable 1 2147483646
    (Int.tdiv (0 + 2147483646) 2 + 1) 2147483646 (by decide) (by decide)
  exact s1.trans s2

/-- C19, amended: for every protocol table with at most 2^30 entries, sorted
or not, and every type, the lookup loop of `process_sftpjob` ends normally
(with an entry of the table or with none) after at most as many iterations as
the table has entries, whatever larger bound is put on its iterations; every
index it reads is at least 0 and less than the number of entries; on an empty
table it reads no entry. -/
theorem lookup_terminates_in_bounds (cs : List sftpcmd) (t : Nat)
    (hlen : cs.length ≤ 1073741824) :
    ((∃ m c, cs[m]? = some c ∧
        lookup cs t (cs.length + 1) 0 ((cs.length : Int) - 1) = Lookup.found m c) ∨
      lookup cs t (cs.length + 1) 0 ((cs.length : Int) - 1) = Lookup.not_found) ∧
    (∀ m ∈ lookup_probes cs t (cs.length + 1) 0 ((cs.length : Int) - 1),
      0 ≤ m ∧ m < cs.length) ∧
    (lookup_probes cs t (cs.length + 1) 0 ((cs.length : Int) - 1)).length ≤ cs.length ∧
    (∀ k, lookup cs t (cs.length + 1 + k) 0 ((cs.length : Int) - 1) =
          lookup cs t (cs.length + 1) 0 ((cs.length : Int) - 1) ∧
        lookup_probes cs t (cs.length + 1 + k) 0 ((cs.length : Int) - 1) =
          lookup_probes cs t (cs.length + 1) 0 ((cs.length : Int) - 1)) ∧
    (cs.length = 0 →
      lookup_probes cs t (cs.length + 1) 0 ((cs.length : Int) - 1) = []) := by
  obtain ⟨ha, hb, hc⟩ := lookup_probes_spec cs t hlen (cs.length + 1) 0
    ((cs.length : Int) - 1) (le_refl _) (by omega) (by omega) (by push_cast; omega)
  have hb' : (lookup_probes cs t (cs.length + 1) 0 ((cs.length : Int) - 1)).length
      ≤ cs.length := by omega
  refine ⟨lookup_total cs t hlen (cs.length + 1) 0 ((cs.length : Int) - 1)
      (le_refl _) (by omega) (by omega) (by push_cast; omega), ?_, hb', hc, ?_⟩
  · intro m hm
    have := ha m hm
    omega
  · intro h0
    apply List.eq_nil_of_length_eq_zero
    omega

theorem lookup_terminates_in_bounds_witness :
    sampleTable.length ≤ 1073741824 ∧
    (∀ m ∈ lookup_probes sampleTable (5 : Nat) (sampleTable.length + 1) 0
        ((sampleTable.length : Int) - 1), 0 ≤ m ∧ m < sampleTable.length) ∧
    lookup_probes sampleTable (5 : Nat) (sampleTable.length + 1) 0
        ((sampleTable.length : Int) - 1) = [1] :=
  ⟨by decide,
   (lookup_terminates_in_bounds sampleTable 5 (by decide)).2.1,
   by decide⟩

/-! ## Theorems: the globals along sequences of jobs -/

theorem done_globals (r : Run) : (done r).globals = r.globals := by
  unfold done
  split <;> rfl

theorem done_trace_mem (r : Run) (e : Event) (h : e ∈ (done r).trace) :
    e ∈ r.trace ∨ e = Event.serialize_remove_job ∨ e = Event.free_data ∨
      e = Event.free_job := by
  unfold done at h
  split at h
  · exact Or.inl h
  · simpa using h

theorem locate_handler_keeps (X : Env) (g : Globals) (job : sftpjob) (t : Nat)
    (hext : handlers_keep_globals X) (hp : g.protocol ≠ Protocol.sftppreinit) :
    (locate_handler X g job t).globals = g ∧
      ∀ n, Event.queue_init n ∉ (locate_handler X g job t).trace := by
  rcases locate_handler_cases X g job t with ⟨m, c, hm, h⟩ | h | ⟨s, h⟩
  · rw [h]
    obtain ⟨h1, h2⟩ := hext g.protocol hp c (List.getElem?_mem hm) g job
    refine ⟨h1, ?_⟩
    intro n hn
    rcases List.mem_cons.mp hn with h' | h'
    · cases h'
    · exact h2 n h'
  · rw [h]; exact ⟨rfl, by simp⟩
  · rw [h]; exact ⟨rfl, by simp⟩

theorem process_sftpjob_keeps (X : Env) (g : Globals) (jv : sftpjob)
    (hext : handlers_keep_globals X) (hp : g.protocol ≠ Protocol.sftppreinit) :
    (process_sftpjob X g jv).globals = g ∧
      ∀ n, Event.queue_init n ∉ (process_sftpjob X g jv).trace := by
  have key : ∀ (job : sftpjob) (t : Nat),
      process_sftpjob X g jv = done (locate_handler X g job t) →
      (process_sftpjob X g jv).globals = g ∧
        ∀ n, Event.queue_init n ∉ (process_sftpjob X g jv).trace := by
    intro job t e
    obtain ⟨h1, h2⟩ := locate_handler_keeps X g job t hext hp
    rw [e, done_globals]
    refine ⟨h1, ?_⟩
    intro n hn
    rcases done_trace_mem _ _ hn with h | h | h | h
    · exact h2 n h
    · cases h
    · cases h
    · cases h
  by_cases h0 : jv.len = 0
  · rw [process_sftpjob_empty X g jv h0]; exact ⟨rfl, by simp⟩
  · by_cases ht : jv.byte 0 = X.SSH_FXP_INIT
    · exact key _ _ (process_sftpjob_init X g jv h0 ht)
    · by_cases hs : jv.len < 5
      · rw [process_sftpjob_missing_id X g jv h0 ht hs]; exact ⟨rfl, by simp⟩
      · exact key _ _ (process_sftpjob_with_id X g jv ht (by omega))

/-- C20: in every state of the globals reachable from the state at program
start (pre-init table, no work queue) by processing jobs, the worker pool
exists exactly when the protocol state is not the pre-init table, and the
protocol state is the pre-init, the version-3 or the version-4 table; the
handlers of the version-3 and version-4 tables are taken to leave the globals
of `sftpserver.c` alone. -/
theorem reachable_pool_iff_initialized (X : Env) (hext : handlers_keep_globals X)
    (g : Globals) (hg : Reachable X g) :
    (g.workqueue ≠ none ↔ g.protocol ≠ Protocol.sftppreinit) ∧
    (g.protocol = Protocol.sftppreinit ∨ g.protocol = Protocol.sftpv3 ∨
      g.protocol = Protocol.sftpv4) := by
  refine ⟨?_, by cases g.protocol <;> simp⟩
  induction hg with
  | initial => simp [Globals.initial]
  | step g job _ ih =>
    by_cases hp : g.protocol = Protocol.sftppreinit
    · obtain ⟨_, _, h⟩ := process_sftpjob_preinit_quiet X g job hp
      rcases h with h | ⟨h1, h2⟩
      · rw [h]; exact ih
      · rw [h2]
        simp [h1]
    · rw [(process_sftpjob_keeps X g job hext hp).1]
      exact ih

theorem sampleEnv_keeps (host : Endian) : handlers_keep_globals (sampleEnv host) := by
  intro p hp c hc g job
  cases p with
  | sftppreinit => exact absurd rfl hp
  | sftpv3 =>
    simp only [protocolTable, sampleEnv, sampleTable, List.mem_cons, List.mem_singleton,
      List.not_mem_nil, or_false] at hc
    rcases hc with h | h | h | h <;> subst h <;> exact ⟨rfl, by simp [sample_handler]⟩
  | sftpv4 => simp [protocolTable, sampleEnv] at hc

theorem reachable_pool_iff_initialized_witness :
    handlers_keep_globals (sampleEnv Endian.big) ∧
    Reachable (sampleEnv Endian.big)
      (process_sftpjob (sampleEnv Endian.big) Globals.initial
        ⟨5, [1, 0, 0, 0, 3], 0, 0, 0⟩).globals ∧
    (process_sftpjob (sampleEnv Endian.big) Globals.initial
        ⟨5, [1, 0, 0, 0, 3], 0, 0, 0⟩).globals = ⟨Protocol.sftpv3, some ⟨4⟩⟩ ∧
    (((process_sftpjob (sampleEnv Endian.big) Globals.initial
        ⟨5, [1, 0, 0, 0, 3], 0, 0, 0⟩).globals.workqueue ≠ none ↔
      (process_sftpjob (sampleEnv Endian.big) Globals.initial
        ⟨5, [1, 0, 0, 0, 3], 0, 0, 0⟩).globals.protocol ≠ Protocol.sftppreinit) ∧
    ((process_sftpjob (sampleEnv Endian.big) Globals.initial
        ⟨5, [1, 0, 0, 0, 3], 0, 0, 0⟩).globals.protocol = Protocol.sftppreinit ∨
      (process_sftpjob (sampleEnv Endian.big) Globals.initial
        ⟨5, [1, 0, 0, 0, 3], 0, 0, 0⟩).globals.protocol = Protocol.sftpv3 ∨
      (process_sftpjob (sampleEnv Endian.big) Globals.initial
        ⟨5, [1, 0, 0, 0, 3], 0, 0, 0⟩).globals.protocol = Protocol.sftpv4)) :=
  ⟨sampleEnv_keeps Endian.big,
   Reachable.step _ _ Reachable.initial,
   by decide,
   reachable_pool_iff_initialized (sampleEnv Endian.big) (sampleEnv_keeps Endian.big) _
     (Reachable.step _ _ Reachable.initial)⟩

/-! ## Theorems: creation of the worker pool -/

theorem sftp_init_steps_ok (X : Env) (g : Globals) (job job' : sftpjob) (v : Nat)
    (hpre : g.protocol = Protocol.sftppreinit)
    (hparse : parse_uint32 job = some (v, job')) (hv : 3 ≤ v) :
    sftp_init_steps X g job =
      (version_reply X (if v = 3 then 3 else 4) ++ [Event.queue_init 4]).map
        (fun e => ((⟨if v = 3 then Protocol.sftpv3 else Protocol.sftpv4, g.workqueue⟩ :
          Globals), e)) := by
  have h3 : v = 3 ∨ v = 4 ∨ 5 ≤ v := by omega
  rcases h3 with h | h | h
  · subst h
    simp [sftp_init_steps, hpre, hparse, version_reply]
  · subst h
    simp [sftp_init_steps, hpre, hparse, version_reply]
  · have e0 : v ≠ 0 := by omega
    have e1 : v ≠ 1 := by omega
    have e2 : v ≠ 2 := by omega
    have e3 : v ≠ 3 := by omega
    have e4 : v ≠ 4 := by omega
    simp [sftp_init_steps, hpre, hparse, e0, e1, e2, e3, e4, version_reply]

theorem sftp_init_steps_spec (X : Env) (g : Globals) (job : sftpjob) :
    (sftp_init_steps X g job).map Prod.snd = (sftp_init X g job).trace ∧
    ∀ (g' : Globals) (n : Nat), (g', Event.queue_init n) ∈ sftp_init_steps X g job →
      n = 4 ∧ g'.protocol ≠ Protocol.sftppreinit ∧
      g'.protocol = (sftp_init X g job).globals.protocol ∧ g'.workqueue = g.workqueue ∧
      ∃ v, (sftp_init_steps X g job).map Prod.snd =
        version_reply X v ++ [Event.queue_init 4] := by
  by_cases h : g.protocol = Protocol.sftppreinit
  · cases hp : parse_uint32 job with
    | none =>
      rw [sftp_init_no_version X g job h hp]
      simp [sftp_init_steps, h, hp]
    | some q =>
      obtain ⟨v, job'⟩ := q
      by_cases hv : v ≤ 2
      · have hv' : v = 0 ∨ v = 1 ∨ v = 2 := by omega
        rw [sftp_init_old X g job job' v h hp hv]
        simp [sftp_init_steps, h, hp, hv', parse_uint32_id hp]
      · rw [sftp_init_ok X g job job' v h hp (by omega),
          sftp_init_steps_ok X g job job' v h hp (by omega)]
        refine ⟨by simp [version_reply], ?_⟩
        intro g' n hmem
        simp only [version_reply, List.cons_append, List.nil_append, List.map_cons,
          List.map_nil, List.mem_cons, Prod.mk.injEq, reduceCtorEq, and_false, false_or,
          Event.queue_init.injEq, List.mem_singleton, List.not_mem_nil, or_false] at hmem
        obtain ⟨hg', hn⟩ := hmem
        subst hg'
        refine ⟨hn, ?_, rfl, rfl, (if v = 3 then 3 else 4), by simp [version_reply]⟩
        simp only
        split <;> simp
  · rw [sftp_init_already X g job h]
    simp [sftp_init_steps, h]

theorem process_sftpjob_pool (X : Env) (g : Globals) (jv : sftpjob)
    (hext : handlers_keep_globals X) :
    ((process_sftpjob X g jv).globals = g ∧
      ∀ n, Event.queue_init n ∉ (process_sftpjob X g jv).trace) ∨
    (g.protocol = Protocol.sftppreinit ∧
      (process_sftpjob X g jv).globals.protocol ≠ Protocol.sftppreinit ∧
      ∃ job v, (process_sftpjob X g jv).trace =
        (Event.handler 0 job :: version_reply X v) ++
          Event.queue_init 4 ::
            [Event.serialize_remove_job, Event.free_data, Event.free_job]) := by
  by_cases hp : g.protocol = Protocol.sftppreinit
  · have key : ∀ (job : sftpjob) (t : Nat),
        process_sftpjob X g jv = done (locate_handler X g job t) →
        ((process_sftpjob X g jv).globals = g ∧
          ∀ n, Event.queue_init n ∉ (process_sftpjob X g jv).trace) ∨
        (g.protocol = Protocol.sftppreinit ∧
          (process_sftpjob X g jv).globals.protocol ≠ Protocol.sftppreinit ∧
          ∃ job v, (process_sftpjob X g jv).trace =
            (Event.handler 0 job :: version_reply X v) ++
              Event.queue_init 4 ::
                [Event.serialize_remove_job, Event.free_data, Event.free_job]) := by
      intro job t e
      rw [e, locate_handler_preinit X g job t hp]
      split
      · cases hparse : parse_uint32 job with
        | none =>
          rw [sftp_init_no_version X g job hp hparse]
          exact Or.inl ⟨rfl, by simp [done]⟩
        | some q =>
          obtain ⟨v, job'⟩ := q
          by_cases hv : v ≤ 2
          · rw [sftp_init_old X g job job' v hp hparse hv]
            exact Or.inl ⟨rfl, by simp [done]⟩
          · rw [sftp_init_ok X g job job' v hp hparse (by omega)]
            refine Or.inr ⟨hp, ?_, job, (if v = 3 then 3 else 4), ?_⟩
            · simp only [done]
              split <;> simp
            · simp [done, version_reply]
      · exact Or.inl ⟨rfl, by simp [done]⟩
    by_cases h0 : jv.len = 0
    · rw [process_sftpjob_empty X g jv h0]; exact Or.inl ⟨rfl, by simp⟩
    · by_cases ht : jv.byte 0 = X.SSH_FXP_INIT
      · exact key _ _ (process_sftpjob_init X g jv h0 ht)
      · by_cases hs : jv.len < 5
        · rw [process_sftpjob_missing_id X g jv h0 ht hs]; exact Or.inl ⟨rfl, by simp⟩
        · exact key _ _ (process_sftpjob_with_id X g jv ht (by omega))
  · exact Or.inl (process_sftpjob_keeps X g jv hext hp)

theorem append_split_of_not_mem {A B pre post : List Event} {e : Event} (hA : e ∉ A)
    (h : A ++ B = pre ++ e :: post) : ∃ pre2, pre = A ++ pre2 ∧ B = pre2 ++ e :: post := by
  rcases List.append_eq_append_iff.mp h with ⟨a, hpre, hB⟩ | ⟨c, hA', hc⟩
  · exact ⟨a, hpre, hB⟩
  · cases c with
    | nil =>
      simp only [List.append_nil] at hA'
      simp only [List.nil_append] at hc
      exact ⟨[], by simp [hA'], hc.symm⟩
    | cons y c =>
      simp only [List.cons_append, List.cons.injEq] at hc
      exfalso
      apply hA
      rw [hA', hc.1]
      simp

theorem process_all_trace (X : Env) (g : Globals) (job : sftpjob) (jobs : List sftpjob) :
    ∃ T, (process_all X g (job :: jobs)).trace = (process_sftpjob X g job).trace ++ T ∧
      (T = [] ∨ T = (process_all X (process_sftpjob X g job).globals jobs).trace) := by
  simp only [process_all]
  split
  · exact ⟨[], by simp, Or.inl rfl⟩
  · exact ⟨_, rfl, Or.inr rfl⟩

theorem process_all_keeps (X : Env) (hext : handlers_keep_globals X) (jobs : List sftpjob) :
    ∀ g : Globals, g.protocol ≠ Protocol.sftppreinit →
      ∀ n, Event.queue_init n ∉ (process_all X g jobs).trace := by
  induction jobs with
  | nil => intro g _ n; simp [process_all]
  | cons job jobs ih =>
    intro g hp n hn
    obtain ⟨T, hT, hT'⟩ := process_all_trace X g job jobs
    obtain ⟨h1, h2⟩ := process_sftpjob_keeps X g job hext hp
    rw [hT] at hn
    rcases List.mem_append.mp hn with h | h
    · exact h2 n h
    · rcases hT' with e | e
      · rw [e] at h; cases h
      · rw [e, h1] at h
        exact ih g hp n h

theorem process_all_pool (X : Env) (hext : handlers_keep_globals X) (jobs : List sftpjob) :
    ∀ g : Globals,
      List.count (Event.queue_init 4) (process_all X g jobs).trace ≤ 1 ∧
      (∀ n, Event.queue_init n ∈ (process_all X g jobs).trace → n = 4) ∧
      ∀ (pre post : List Event) (n : Nat),
        (process_all X g jobs).trace = pre ++ Event.queue_init n :: post →
        ∃ pre' v, pre = pre' ++ version_reply X v := by
  induction jobs with
  | nil =>
    intro g
    refine ⟨by simp [process_all], by simp [process_all], ?_⟩
    intro pre post n h
    simp [process_all] at h
  | cons job jobs ih =>
    intro g
    obtain ⟨T, hT, hT'⟩ := process_all_trace X g job jobs
    rw [hT]
    have hTP : List.count (Event.queue_init 4) T ≤ 1 ∧
        (∀ n, Event.queue_init n ∈ T → n = 4) ∧
        ∀ (pre post : List Event) (n : Nat), T = pre ++ Event.queue_init n :: post →
          ∃ pre' v, pre = pre' ++ version_reply X v := by
      rcases hT' with e | e
      · rw [e]
        refine ⟨by simp, by simp, ?_⟩
        intro pre post n h
        simp at h
      · rw [e]
        exact ih _
    rcases process_sftpjob_pool X g job hext with ⟨_, hno⟩ | ⟨_, hp', job', v, htr⟩
    · refine ⟨?_, ?_, ?_⟩
      · rw [List.count_append, List.count_eq_zero_of_not_mem (hno 4)]
        simpa using hTP.1
      · intro n hn
        rcases List.mem_append.mp hn with h | h
        · exact absurd h (hno n)
        · exact hTP.2.1 n h
      · intro pre post n h
        obtain ⟨pre2, hpre, hT2⟩ := append_split_of_not_mem (hno n) h
        obtain ⟨pre', v, hv⟩ := hTP.2.2 pre2 post n hT2
        exact ⟨(process_sftpjob X g job).trace ++ pre', v, by rw [hpre, hv, List.append_assoc]⟩
    · have hTno : ∀ n, Event.queue_init n ∉ T := by
        intro n hn
        rcases hT' with e | e
        · rw [e] at hn; cases hn
        · rw [e] at hn
          exact process_all_keeps X hext jobs _ hp' n hn
      have hH : ∀ n, Event.queue_init n ∉ Event.handler 0 job' :: version_reply X v := by
        intro n; simp [version_reply]
      have hD : ∀ n, Event.queue_init n ∉
          [Event.serialize_remove_job, Event.free_data, Event.free_job] := by
        intro n; simp
      rw [htr]
      refine ⟨?_, ?_, ?_⟩
      · rw [List.count_append, List.count_append, List.count_eq_zero_of_not_mem (hTno 4),
          List.count_eq_zero_of_not_mem (hH 4), List.count_cons,
          List.count_eq_zero_of_not_mem (hD 4)]
        simp
      · intro n hn
        simp only [List.mem_append, List.mem_cons] at hn
        rcases hn with (h | h) | h
        · exact absurd (List.mem_cons.mpr h) (by simpa using hH n)
        · rcases h with h | h
          · cases h; rfl
          · exact absurd (by simp at h) (hD n)
        · exact absurd h (hTno n)
      · intro pre post n h
        rw [List.append_assoc] at h
        obtain ⟨pre2, hpre, h2⟩ := append_split_of_not_mem (hH n) h
        cases pre2 with
        | nil => exact ⟨[Event.handler 0 job'], v, by rw [hpre]; simp⟩
        | cons x pre3 =>
          exfalso
          simp only [List.cons_append, List.cons.injEq] at h2
          have hmem : Event.queue_init n ∈
              [Event.serialize_remove_job, Event.free_data, Event.free_job] ++ T := by
            have h3 : [Event.serialize_remove_job, Event.free_data, Event.free_job] ++ T =
                pre3 ++ Event.queue_init n :: post := by simpa using h2.2
            rw [h3]; simp
          rcases List.mem_append.mp hmem with h' | h'
          · exact hD n h'
          · exact hTno n h'

/-- C12: along every sequence of processed requests, from program start,
`queue_init` is called at most once and with 4 workers; the calls before it
end with the complete version reply, `send_begin` to `send_end`; and at the
call the global `protocol` has already been switched to the negotiated table
while `workqueue` is still what it was. The handlers of the version-3 and
version-4 tables are taken to leave the globals alone and not to call
`queue_init`. -/
theorem pool_created_once (X : Env) (hext : handlers_keep_globals X)
    (jobs : List sftpjob) :
    List.count (Event.queue_init 4) (process_all X Globals.initial jobs).trace ≤ 1 ∧
    (∀ n, Event.queue_init n ∈ (process_all X Globals.initial jobs).trace → n = 4) ∧
    (∀ (pre post : List Event) (n : Nat),
      (process_all X Globals.initial jobs).trace = pre ++ Event.queue_init n :: post →
      ∃ pre' v, pre = pre' ++ version_reply X v) ∧
    ∀ (g : Globals) (job : sftpjob),
      (sftp_init_steps X g job).map Prod.snd = (sftp_init X g job).trace ∧
      ∀ (g' : Globals) (n : Nat), (g', Event.queue_init n) ∈ sftp_init_steps X g job →
        n = 4 ∧ g'.protocol ≠ Protocol.sftppreinit ∧
        g'.protocol = (sftp_init X g job).globals.protocol ∧ g'.workqueue = g.workqueue ∧
        ∃ v, (sftp_init_steps X g job).map Prod.snd =
          version_reply X v ++ [Event.queue_init 4] := by
  obtain ⟨h1, h2, h3⟩ := process_all_pool X hext jobs Globals.initial
  exact ⟨h1, h2, h3, fun g job => sftp_init_steps_spec X g job⟩

theorem pool_created_once_witness :
    handlers_keep_globals (sampleEnv Endian.big) ∧
    List.count (Event.queue_init 4)
      (process_all (sampleEnv Endian.big) Globals.initial
        [⟨5, [1, 0, 0, 0, 2], 0, 0, 0⟩, ⟨5, [1, 0, 0, 0, 3], 0, 0, 0⟩,
         ⟨5, [1, 0, 0, 0, 4], 0, 0, 0⟩, ⟨6, [5, 0, 0, 0, 9, 7], 0, 0, 0⟩]).trace ≤ 1 ∧
    List.count (Event.queue_init 4)
      (process_all (sampleEnv Endian.big) Globals.initial
        [⟨5, [1, 0, 0, 0, 2], 0, 0, 0⟩, ⟨5, [1, 0, 0, 0, 3], 0, 0, 0⟩,
         ⟨5, [1, 0, 0, 0, 4], 0, 0, 0⟩, ⟨6, [5, 0, 0, 0, 9, 7], 0, 0, 0⟩]).trace = 1 :=
  ⟨sampleEnv_keeps Endian.big,
   (pool_created_once (sampleEnv Endian.big) (sampleEnv_keeps Endian.big)
      [⟨5, [1, 0, 0, 0, 2], 0, 0, 0⟩, ⟨5, [1, 0, 0, 0, 3], 0, 0, 0⟩,
       ⟨5, [1, 0, 0, 0, 4], 0, 0, 0⟩, ⟨6, [5, 0, 0, 0, 9, 7], 0, 0, 0⟩]).1,
   by decide⟩

/-! ## Theorems: inline execution and submission -/

theorem process_sftpjob_preinit_handshake (X : Env) (g : Globals) (jv : sftpjob)
    (hpre : g.protocol = Protocol.sftppreinit) :
    (handshake_ok X jv = true →
      (process_sftpjob X g jv).globals.protocol ≠ Protocol.sftppreinit ∧
      (process_sftpjob X g jv).globals.workqueue = some ⟨4⟩ ∧
      Event.send_end ∈ (process_sftpjob X g jv).trace) ∧
    (handshake_ok X jv = false →
      (process_sftpjob X g jv).globals = g ∧
      Event.send_end ∉ (process_sftpjob X g jv).trace) := by
  by_cases h0 : jv.len = 0
  · have hk : handshake_ok X jv = false := by simp [handshake_ok, h0]
    rw [process_sftpjob_empty X g jv h0, hk]
    simp
  · by_cases ht : jv.byte 0 = X.SSH_FXP_INIT
    · rw [process_sftpjob_init X g jv h0 ht, locate_handler_preinit X g _ _ hpre, if_pos rfl]
      by_cases h4 : jv.len - 1 < 4
      · have hk : handshake_ok X jv = false := by
          simp only [handshake_ok, Bool.and_eq_false_imp, Bool.and_eq_true, decide_eq_true_eq,
            decide_eq_false_iff_not]
          omega
        have hp : parse_uint32 { jv with id := 0, ptr := 1, left := jv.len - 1 } = none := by
          simp [parse_uint32, h4]
        rw [sftp_init_no_version X g _ hpre hp, hk]
        simp [done]
      · have hp : parse_uint32 { jv with id := 0, ptr := 1, left := jv.len - 1 } =
            some (be32 (jv.byte 1) (jv.byte 2) (jv.byte 3) (jv.byte 4),
                  { jv with id := 0, ptr := 1 + 4, left := jv.len - 1 - 4 }) := by
          simp [parse_uint32, h4, sftpjob.byte]
        by_cases hv : be32 (jv.byte 1) (jv.byte 2) (jv.byte 3) (jv.byte 4) ≤ 2
        · have hk : handshake_ok X jv = false := by
            simp only [handshake_ok, Bool.and_eq_false_imp, Bool.and_eq_true,
              decide_eq_true_eq, decide_eq_false_iff_not]
            omega
          rw [sftp_init_old X g _ _ _ hpre hp hv, hk]
          simp [done]
        · have hk : handshake_ok X jv = true := by
            simp only [handshake_ok, Bool.and_eq_true, decide_eq_true_eq]
            exact ⟨⟨ht, by omega⟩, by omega⟩
          rw [sftp_init_ok X g _ _ _ hpre hp (by omega), hk]
          simp only [done, true_implies, Bool.true_eq_false, false_implies, and_true]
          split <;> simp
    · have hk : handshake_ok X jv = false := by simp [handshake_ok, ht]
      rw [hk]
      by_cases hs : jv.len < 5
      · rw [process_sftpjob_missing_id X g jv h0 ht hs]
        simp
      · rw [process_sftpjob_with_id X g jv ht (by omega),
          locate_handler_preinit X g _ _ hpre, if_neg ht]
        simp [done]

theorem executions_append (a b : List Event) :
    executions (a ++ b) = executions a ++ executions b := by
  induction a with
  | nil => rfl
  | cons e a ih => cases e <;> simp [executions, ih]

theorem executions_fst (a : List Event) : (executions a).map Prod.fst = dispatched a := by
  induction a with
  | nil => rfl
  | cons e a ih => cases e <;> simp [executions, dispatched, ih]

theorem executions_of_dispatched_nil (a : List Event) (h : dispatched a = []) :
    executions a = [] := by
  have := executions_fst a
  rw [h] at this
  exact List.map_eq_nil_iff.mp this

theorem main_loop_executions (X : Env) :
    ∀ (fuel : Nat) (input : List Nat) (g : Globals),
      (g.workqueue = none → g.protocol = Protocol.sftppreinit) →
      executions (main_loop X fuel input g).trace =
        expected_executions X g.workqueue.isSome
          (dispatched (main_loop X fuel input g).trace) := by
  intro fuel
  induction fuel with
  | zero => intro input g _; simp [main_loop, executions, dispatched, expected_executions]
  | succ fuel ih =>
    intro input g hinv
    unfold main_loop
    split
    · simp [executions, dispatched, expected_executions]
    · rename_i hdr rest _
      simp only
      split
      · simp [executions, dispatched, expected_executions]
      · rename_i data rest' _
        split
        · rename_i q hq
          have hrec := ih rest' g hinv
          simp only [Run.after, executions_append, dispatched_append, hrec, hq]
          simp [executions, dispatched, expected_executions, apply_ite executions,
            apply_ite dispatched]
        · rename_i hq
          have hpre := hinv hq
          obtain ⟨hstop, hev, hglob⟩ := process_sftpjob_preinit_quiet X g
            ⟨ntohl X.host (X.host.load32 hdr), data, 0, 0, 0⟩ hpre
          obtain ⟨hyes, hno⟩ := process_sftpjob_preinit_handshake X g
            ⟨ntohl X.host (X.host.load32 hdr), data, 0, 0, 0⟩ hpre
          split
          · rename_i s hs
            rw [hstop] at hs
            cases hs
          · have hinv' : (process_sftpjob X g
                ⟨ntohl X.host (X.host.load32 hdr), data, 0, 0, 0⟩).globals.workqueue = none →
                (process_sftpjob X g
                ⟨ntohl X.host (X.host.load32 hdr), data, 0, 0, 0⟩).globals.protocol
                = Protocol.sftppreinit := by
              intro hnone
              rcases hglob with h | ⟨_, h⟩
              · rw [h]; exact hpre
              · rw [h] at hnone
                cases hnone
            have hflag : (process_sftpjob X g
                ⟨ntohl X.host (X.host.load32 hdr), data, 0, 0, 0⟩).globals.workqueue.isSome =
                handshake_ok X ⟨ntohl X.host (X.host.load32 hdr), data, 0, 0, 0⟩ := by
              cases hk : handshake_ok X ⟨ntohl X.host (X.host.load32 hdr), data, 0, 0, 0⟩
              · rw [(hno hk).1, hq]; rfl
              · rw [(hyes hk).2.1]; rfl
            have hB := dispatched_of_not_loop _ hev
            have hBE := executions_of_dispatched_nil _ hB
            have hrec := ih rest' _ hinv'
            simp only [Run.after, executions_append, dispatched_append, hrec, hflag, hq,
              hB, hBE]
            simp [executions, dispatched, expected_executions, apply_ite executions,
              apply_ite dispatched]

theorem expected_executions_get (X : Env) (jobs : List sftpjob) :
    ∀ (initialized : Bool) (k : Nat) (job : sftpjob) (inline : Bool),
      (expected_executions X initialized jobs)[k]? = some (job, inline) →
      jobs[k]? = some job ∧
      (inline = true ↔ initialized = false ∧
        ∀ i j, i < k → jobs[i]? = some j → handshake_ok X j = false) := by
  induction jobs with
  | nil => intro d k job inline h; simp [expected_executions] at h
  | cons a jobs ih =>
    intro d k job inline h
    cases k with
    | zero =>
      simp only [expected_executions, List.getElem?_cons_zero, Option.some.injEq,
        Prod.mk.injEq] at h
      obtain ⟨h1, h2⟩ := h
      subst h1
      refine ⟨by simp, ?_⟩
      rw [← h2]
      cases d <;> simp
    | succ k =>
      simp only [expected_executions, List.getElem?_cons_succ] at h
      obtain ⟨h1, h2⟩ := ih _ k job inline h
      refine ⟨by simpa using h1, ?_⟩
      rw [h2]
      constructor
      · rintro ⟨hd, hall⟩
        simp only [Bool.or_eq_false_iff] at hd
        refine ⟨hd.1, ?_⟩
        intro i j hi hj
        cases i with
        | zero =>
          simp only [List.getElem?_cons_zero, Option.some.injEq] at hj
          rw [← hj]; exact hd.2
        | succ i =>
          simp only [List.getElem?_cons_succ] at hj
          exact hall i j (by omega) hj
      · rintro ⟨hd, hall⟩
        refine ⟨?_, ?_⟩
        · simp only [Bool.or_eq_false_iff]
          exact ⟨hd, hall 0 a (by omega) (by simp)⟩
        · intro i j hi hj
          exact hall (i + 1) j (by omega) (by simpa using hj)

/-- C11: along every run of `main`, a framed job is executed inline by
`process_sftpjob` exactly when no job framed before it completed a successful
handshake, and is submitted with `queue_add` otherwise; a job completes a
successful handshake (`handshake_ok`) exactly when processing it in the
uninitialized state writes the version reply, switches the protocol table and
creates the work queue; the framed jobs are, in order of arrival, the frames
of the input stream, one job for each complete frame. -/
theorem main_inline_until_handshake (X : Env) (input : List Nat)
    (hbytes : ∀ b ∈ input, b < 256) :
    executions (main X input).trace =
        expected_executions X false (dispatched (main X input).trace) ∧
    (∀ (k : Nat) (job : sftpjob) (inline : Bool),
      (executions (main X input).trace)[k]? = some (job, inline) →
      (dispatched (main X input).trace)[k]? = some job ∧
      (inline = true ↔
        ∀ i j, i < k → (dispatched (main X input).trace)[i]? = some j →
          handshake_ok X j = false)) ∧
    (∀ (g : Globals) (jv : sftpjob), g.protocol = Protocol.sftppreinit →
      (handshake_ok X jv = true →
        (process_sftpjob X g jv).globals.protocol ≠ Protocol.sftppreinit ∧
        (process_sftpjob X g jv).globals.workqueue = some ⟨4⟩ ∧
        Event.send_end ∈ (process_sftpjob X g jv).trace) ∧
      (handshake_ok X jv = false →
        (process_sftpjob X g jv).globals = g ∧
        Event.send_end ∉ (process_sftpjob X g jv).trace)) ∧
    frames input = (dispatched (main X input).trace).map (fun job => job.data) ∧
    (∀ job ∈ dispatched (main X input).trace, job.len = job.data.length) ∧
    (main X input).stop ≠ some Stop.out_of_fuel := by
  have hex : executions (main X input).trace =
      expected_executions X false (dispatched (main X input).trace) :=
    main_loop_executions X _ input Globals.initial (fun _ => rfl)
  refine ⟨hex, ?_, fun g jv hpre => process_sftpjob_preinit_handshake X g jv hpre,
    (main_loop_frames X _ input Globals.initial (fun _ => rfl) hbytes).1,
    (main_loop_frames X _ input Globals.initial (fun _ => rfl) hbytes).2,
    main_loop_fuel X _ input Globals.initial (fun _ => rfl) (by omega)⟩
  intro k job inline hk
  rw [hex] at hk
  obtain ⟨h1, h2⟩ := expected_executions_get X _ false k job inline hk
  refine ⟨h1, ?_⟩
  rw [h2]
  simp

theorem main_inline_until_handshake_witness :
    (∀ b ∈ [0, 0, 0, 5, 1, 0, 0, 0, 2, 0, 0, 0, 5, 1, 0, 0, 0, 3, 0, 0, 0, 0,
            0, 0, 0, 5, 1, 0, 0, 0, 4], b < 256) ∧
    executions (main (sampleEnv Endian.little)
        [0, 0, 0, 5, 1, 0, 0, 0, 2, 0, 0, 0, 5, 1, 0, 0, 0, 3, 0, 0, 0, 0,
         0, 0, 0, 5, 1, 0, 0, 0, 4]).trace =
      expected_executions (sampleEnv Endian.little) false
        (dispatched (main (sampleEnv Endian.little)
          [0, 0, 0, 5, 1, 0, 0, 0, 2, 0, 0, 0, 5, 1, 0, 0, 0, 3, 0, 0, 0, 0,
           0, 0, 0, 5, 1, 0, 0, 0, 4]).trace) ∧
    executions (main (sampleEnv Endian.little)
        [0, 0, 0, 5, 1, 0, 0, 0, 2, 0, 0, 0, 5, 1, 0, 0, 0, 3, 0, 0, 0, 0,
         0, 0, 0, 5, 1, 0, 0, 0, 4]).trace =
      [(⟨5, [1, 0, 0, 0, 2], 0, 0, 0⟩, true), (⟨5, [1, 0, 0, 0, 3], 0, 0, 0⟩, true),
       (⟨0, [], 0, 0, 0⟩, false), (⟨5, [1, 0, 0, 0, 4], 0, 0, 0⟩, false)] :=
  ⟨by decide,
   (main_inline_until_handshake (sampleEnv Endian.little)
      [0, 0, 0, 5, 1, 0, 0, 0, 2, 0, 0, 0, 5, 1, 0, 0, 0, 3, 0, 0, 0, 0,
       0, 0, 0, 5, 1, 0, 0, 0, 4] (by decide)).1,
   by decide⟩

/-! ## Theorems: the end of the main loop -/

theorem main_loop_frame_step (X : Env) (fuel : Nat) (g : Globals) (b0 b1 b2 b3 : Nat)
    (payload tail : List Nat) (h0 : b0 < 256) (h1 : b1 < 256) (h2 : b2 < 256)
    (h3 : b3 < 256) (hlen : payload.length = be32 b0 b1 b2 b3)
    (hinv : g.workqueue = none → g.protocol = Protocol.sftppreinit) :
    ∃ (es : List Event) (g' : Globals),
      (g'.workqueue = none → g'.protocol = Protocol.sftppreinit) ∧
      main_loop X (fuel + 1) (b0 :: b1 :: b2 :: b3 :: (payload ++ tail)) g =
        Run.after es (main_loop X fuel tail g') ∧
      dispatched es = [⟨payload.length, payload, 0, 0, 0⟩] := by
  have hjl : ntohl X.host (X.host.load32 [b0, b1, b2, b3]) = payload.length := by
    rw [ntohl_load32 X.host b0 b1 b2 b3 h0 h1 h2 h3, hlen]
  have hr4 : do_read (b0 :: b1 :: b2 :: b3 :: (payload ++ tail)) 4 =
      some ([b0, b1, b2, b3], payload ++ tail) := by
    simp [do_read]
  have hrp : do_read (payload ++ tail) payload.length = some (payload, tail) := by
    simp [do_read]
  have hh := loop_head X ⟨payload.length, payload, 0, 0, 0⟩
    (X.host.load32 [b0, b1, b2, b3]) payload
  rw [main_loop, hr4]
  simp only [hjl, hrp]
  cases hq : g.workqueue with
  | some q =>
    have hA := (hh [] (by simp)).1
    simp only [List.append_nil] at hA
    refine ⟨_, g, hinv, rfl, ?_⟩
    rw [dispatched_append, hA]
    rfl
  | none =>
    have hpre := hinv hq
    obtain ⟨hstop, hev, hglob⟩ := process_sftpjob_preinit_quiet X g
      ⟨payload.length, payload, 0, 0, 0⟩ hpre
    simp only [hstop]
    refine ⟨_, _, ?_, rfl, ?_⟩
    · intro hnone
      rcases hglob with h | ⟨_, h⟩
      · rw [h]; exact hpre
      · rw [h] at hnone
        cases hnone
    · have hA := (hh [] (by simp)).1
      simp only [List.append_nil] at hA
      rw [dispatched_append, dispatched_append, dispatched_append, hA,
        dispatched_of_not_loop _ hev]
      rfl

theorem framed_exists :
    ∀ (n : Nat) (input : List Nat), input.length ≤ n →
      ∃ payloads rem, Framed input payloads rem ∧
        (rem.length < 4 ∨
          ∃ b0 b1 b2 b3 tail, rem = b0 :: b1 :: b2 :: b3 :: tail ∧
            tail.length < be32 b0 b1 b2 b3) := by
  intro n
  induction n with
  | zero =>
    intro input h
    exact ⟨[], input, Framed.rest _, Or.inl (by omega)⟩
  | succ n ih =>
    intro input h
    rcases input with _ | ⟨b0, _ | ⟨b1, _ | ⟨b2, _ | ⟨b3, r⟩⟩⟩⟩
    · exact ⟨[], _, Framed.rest _, Or.inl (by simp)⟩
    · exact ⟨[], _, Framed.rest _, Or.inl (by simp)⟩
    · exact ⟨[], _, Framed.rest _, Or.inl (by simp)⟩
    · exact ⟨[], _, Framed.rest _, Or.inl (by simp)⟩
    · by_cases hshort : r.length < be32 b0 b1 b2 b3
      · exact ⟨[], _, Framed.rest _, Or.inr ⟨b0, b1, b2, b3, r, rfl, hshort⟩⟩
      · have hlen : (r.take (be32 b0 b1 b2 b3)).length = be32 b0 b1 b2 b3 := by
          rw [List.length_take]
          omega
        have hdrop : (r.drop (be32 b0 b1 b2 b3)).length ≤ n := by
          simp only [List.length_cons] at h
          rw [List.length_drop]
          omega
        obtain ⟨ps, rem, hfr, hrem⟩ := ih _ hdrop
        refine ⟨r.take (be32 b0 b1 b2 b3) :: ps, rem, ?_, hrem⟩
        have := Framed.frame b0 b1 b2 b3 _ _ ps rem hlen hfr
        rwa [List.take_append_drop] at this

theorem main_loop_framed (X : Env) {input : List Nat} {payloads : List (List Nat)}
    {rem : List Nat} (hfr : Framed input payloads rem) :
    ∀ (fuel : Nat) (g : Globals),
      (g.workqueue = none → g.protocol = Protocol.sftppreinit) →
      (∀ b ∈ input, b < 256) → input.length < 4 * fuel →
      (rem.length < 4 →
        (main_loop X fuel input g).stop = some (Stop.returned 0) ∧
        (dispatched (main_loop X fuel input g).trace).map (fun job => job.data) = payloads) ∧
      (∀ (b0 b1 b2 b3 : Nat) (tail : List Nat), rem = b0 :: b1 :: b2 :: b3 :: tail →
        tail.length < be32 b0 b1 b2 b3 →
        (main_loop X fuel input g).stop = some (Stop.fatal "read error: unexpected eof") ∧
        (dispatched (main_loop X fuel input g).trace).map (fun job => job.data) = payloads) := by
  induction hfr with
  | rest rem =>
    intro fuel g _ hbytes hfuel
    cases fuel with
    | zero => omega
    | succ fuel =>
      refine ⟨?_, ?_⟩
      · intro hshort
        have hnone : do_read rem 4 = none := by simp [do_read, hshort]
        rw [main_loop, hnone]
        exact ⟨rfl, by simp [dispatched]⟩
      · intro b0 b1 b2 b3 tail hrem hshort
        subst hrem
        have hjl : ntohl X.host (X.host.load32 [b0, b1, b2, b3]) = be32 b0 b1 b2 b3 :=
          ntohl_load32 X.host b0 b1 b2 b3 (hbytes b0 (by simp)) (hbytes b1 (by simp))
            (hbytes b2 (by simp)) (hbytes b3 (by simp))
        have hr4 : do_read (b0 :: b1 :: b2 :: b3 :: tail) 4 =
            some ([b0, b1, b2, b3], tail) := by
          simp [do_read]
        have hnone : do_read tail (be32 b0 b1 b2 b3) = none := by simp [do_read, hshort]
        rw [main_loop, hr4]
        simp only [hjl, hnone]
        simp [dispatched]
  | frame b0 b1 b2 b3 payload tail payloads rem hlen _ ih =>
    intro fuel g hinv hbytes hfuel
    cases fuel with
    | zero => omega
    | succ fuel =>
      obtain ⟨es, g', hinv', hstep, hdisp⟩ := main_loop_frame_step X fuel g b0 b1 b2 b3
        payload tail (hbytes b0 (by simp)) (hbytes b1 (by simp)) (hbytes b2 (by simp))
        (hbytes b3 (by simp)) hlen hinv
      have hbytes' : ∀ b ∈ tail, b < 256 := by
        intro b hb
        exact hbytes b (by simp [hb])
      have hfuel' : tail.length < 4 * fuel := by
        simp only [List.length_cons, List.length_append] at hfuel
        omega
      obtain ⟨ha, hb⟩ := ih fuel g' hinv' hbytes' hfuel'
      rw [hstep]
      simp only [Run.after, dispatched_append, hdisp, List.map_append, List.map_cons,
        List.map_nil, List.singleton_append]
      refine ⟨?_, ?_⟩
      · intro hshort
        obtain ⟨hs, hd⟩ := ha hshort
        exact ⟨hs, by rw [hd]⟩
      · intro c0 c1 c2 c3 tl hrem hshort
        obtain ⟨hs, hd⟩ := hb c0 c1 c2 c3 tl hrem hshort
        exact ⟨hs, by rw [hd]⟩

/-- C15: for every input stream made of complete frames followed by the bytes
`rem`: when `rem` has fewer than 4 bytes, so that the read of the next length
prefix reports the end of the stream, `main` returns 0; when `rem` is a length
prefix followed by fewer payload bytes than it declares, `main` ends in
`fatal("read error: unexpected eof")`; in both cases the jobs dispatched are
those of the complete frames, none for the bytes of `rem`. Every stream is
made up in one of these two ways. -/
theorem main_end_of_stream (X : Env) (input : List Nat) (payloads : List (List Nat))
    (rem : List Nat) (hbytes : ∀ b ∈ input, b < 256) (hfr : Framed input payloads rem) :
    (rem.length < 4 →
      (main X input).stop = some (Stop.returned 0) ∧
      (dispatched (main X input).trace).map (fun job => job.data) = payloads) ∧
    (∀ (b0 b1 b2 b3 : Nat) (tail : List Nat), rem = b0 :: b1 :: b2 :: b3 :: tail →
      tail.length < be32 b0 b1 b2 b3 →
      (main X input).stop = some (Stop.fatal "read error: unexpected eof") ∧
      (dispatched (main X input).trace).map (fun job => job.data) = payloads) ∧
    ∃ payloads' rem', Framed input payloads' rem' ∧
      (rem'.length < 4 ∨
        ∃ b0 b1 b2 b3 tail, rem' = b0 :: b1 :: b2 :: b3 :: tail ∧
          tail.length < be32 b0 b1 b2 b3) := by
  obtain ⟨h1, h2⟩ := main_loop_framed X hfr (input.length / 4 + 1) Globals.initial
    (fun _ => rfl) hbytes (by omega)
  exact ⟨h1, h2, framed_exists _ input (le_refl _)⟩

theorem main_end_of_stream_witness :
    (∀ b ∈ [0, 0, 0, 5, 1, 0, 0, 0, 3, 0, 0, 0, 2, 5, 9, 0, 0, 1, 0, 6, 6, 6], b < 256) ∧
    Framed [0, 0, 0, 5, 1, 0, 0, 0, 3, 0, 0, 0, 2, 5, 9, 0, 0, 1, 0, 6, 6, 6]
      [[1, 0, 0, 0, 3], [5, 9]] [0, 0, 1, 0, 6, 6, 6] ∧
    [6, 6, 6].length < be32 0 0 1 0 ∧
    (main (sampleEnv Endian.little)
        [0, 0, 0, 5, 1, 0, 0, 0, 3, 0, 0, 0, 2, 5, 9, 0, 0, 1, 0, 6, 6, 6]).stop =
      some (Stop.fatal "read error: unexpected eof") ∧
    (dispatched (main (sampleEnv Endian.little)
        [0, 0, 0, 5, 1, 0, 0, 0, 3, 0, 0, 0, 2, 5, 9, 0, 0, 1, 0, 6, 6, 6]).trace).map
        (fun job => job.data) = [[1, 0, 0, 0, 3], [5, 9]] :=
  ⟨by decide,
   Framed.frame 0 0 0 5 [1, 0, 0, 0, 3] _ _ _ (by decide)
     (Framed.frame 0 0 0 2 [5, 9] _ _ _ (by decide) (Framed.rest _)),
   by decide,
   ((main_end_of_stream (sampleEnv Endian.little)
      [0, 0, 0, 5, 1, 0, 0, 0, 3, 0, 0, 0, 2, 5, 9, 0, 0, 1, 0, 6, 6, 6]
      [[1, 0, 0, 0, 3], [5, 9]] [0, 0, 1, 0, 6, 6, 6] (by decide)
      (Framed.frame 0 0 0 5 [1, 0, 0, 0, 3] _ _ _ (by decide)
        (Framed.frame 0 0 0 2 [5, 9] _ _ _ (by decide) (Framed.rest _)))).2.1
      0 0 1 0 [6, 6, 6] rfl (by decide))⟩

end Sftpserver
